import Mathlib

/-!
Verification development for the go-fuzz-headers fork.

The development shallowly embeds the two layers of the library:

* the `bytesource` package (`bytesource/bytesource.go`): a cursor over an
  immutable byte buffer with primitive typed reads, and
* the type-directed generator `fuzzStruct` (consumer): a recursive,
  depth-bounded traversal of a target shape that draws from the cursor.

Go machine integers are modelled as `Nat`.  In the Go code `position` and
`dataTotal` are `uint32`; since `dataTotal = uint32(len(input))` and the
positions handled here never leave `[0, dataTotal]`, `Nat` arithmetic agrees
with the Go `uint32` arithmetic for every buffer shorter than `2^32` bytes
(the well-formedness predicate `ByteSource.WF` records the bound).  Bytes are
`Nat`s below 256.  A Go call can end in three ways, which the result type
`Res` makes explicit: return a value, return an error (Go `error`), or abort
with a runtime panic (out-of-range index, modulo by zero).  `Res.fuelOut` is
an artifact of the fuel-indexed embedding of the recursive generator and is
proved unreachable for sufficient fuel.
-/

/-- The `ByteSource` struct of `bytesource/bytesource.go`: raw buffer,
cached total length, cursor position, and the `maxStringLen` cap. -/
structure ByteSource where
  data : List Nat
  dataTotal : Nat
  position : Nat
  maxStringLen : Nat
  deriving DecidableEq

/-- Outcome of an embedded Go call: a value together with the updated
cursor, an error together with the cursor as the code left it, a runtime
panic, or fuel exhaustion of the embedding (never of the Go program). -/
inductive Res (α : Type) where
  | ok : α → ByteSource → Res α
  | err : ByteSource → Res α
  | panic : Res α
  | fuelOut : Res α
  deriving DecidableEq

namespace Res

/-- Sequencing of embedded calls: errors, panics and fuel exhaustion
propagate, mirroring Go early returns on `err != nil`. -/
def bind {α β : Type} : Res α → (α → ByteSource → Res β) → Res β
  | .ok a s, f => f a s
  | .err s, _ => .err s
  | .panic, _ => .panic
  | .fuelOut, _ => .fuelOut

end Res

namespace ByteSource

/-- States reachable from `New`: the cached `dataTotal` is the buffer
length, the cursor is inside the buffer, every byte is below 256, and the
buffer fits in a `uint32` so `Nat` arithmetic matches Go's. -/
def WF (s : ByteSource) : Prop :=
  s.dataTotal = s.data.length ∧ s.position ≤ s.dataTotal ∧
    (∀ b ∈ s.data, b < 256) ∧ s.data.length < 2 ^ 32

instance (s : ByteSource) : Decidable s.WF := by
  unfold WF; infer_instance

/-- `New` (bytesource.go): fresh cursor at position 0 over `input`. -/
def New (input : List Nat) (maxStringLen : Nat) : ByteSource :=
  { data := input, dataTotal := input.length, position := 0,
    maxStringLen := maxStringLen }

/-- `GetInt` (bytesource.go): one byte as a (non-negative) integer. -/
def GetInt (f : ByteSource) : Res Nat :=
  if f.dataTotal ≤ f.position then .err f
  else
    match f.data.get? f.position with
    | some b => .ok b { f with position := f.position + 1 }
    | none => .panic

/-- `GetByte` (bytesource.go): one raw byte. -/
def GetByte (f : ByteSource) : Res Nat :=
  if f.dataTotal ≤ f.position then .err f
  else
    match f.data.get? f.position with
    | some b => .ok b { f with position := f.position + 1 }
    | none => .panic

/-- The `for i := 0; i < numberOfBytes; i++` loop of `GetNBytes`,
accumulating the bytes read by successive `GetByte` calls. -/
def getNLoop : Nat → ByteSource → Res (List Nat)
  | 0, s => .ok [] s
  | n + 1, s =>
    match GetByte s with
    | .ok b s' =>
      match getNLoop n s' with
      | .ok bs s'' => .ok (b :: bs) s''
      | .err t => .err t
      | .panic => .panic
      | .fuelOut => .fuelOut
    | .err t => .err t
    | .panic => .panic
    | .fuelOut => .fuelOut

/-- `GetNBytes` (bytesource.go): an up-front emptiness check, then
`numberOfBytes` single-byte reads; a mid-loop failure returns the error
with the position as the loop left it. -/
def GetNBytes (numberOfBytes : Nat) (f : ByteSource) : Res (List Nat) :=
  if f.dataTotal ≤ f.position then .err f
  else getNLoop numberOfBytes f

/-- `binary.LittleEndian` of a byte list (first byte least significant). -/
def leVal (bs : List Nat) : Nat := bs.foldr (fun b acc => b + 256 * acc) 0

/-- `binary.BigEndian` of a byte list (first byte most significant). -/
def beVal (bs : List Nat) : Nat := bs.foldl (fun acc b => acc * 256 + b) 0

/-- `GetBool` (bytesource.go).  Faithful to the code: the position is
incremented first and the parity test then indexes `f.data[f.position]`
with the already-incremented position — the byte after the consumed one —
which is an out-of-range panic when the consumed byte was the last. -/
def GetBool (f : ByteSource) : Res Bool :=
  if f.dataTotal ≤ f.position then .err f
  else
    match f.data.get? (f.position + 1) with
    | some b => .ok (b % 2 == 0) { f with position := f.position + 1 }
    | none => .panic

/-- `GetUint16` (bytesource.go): two raw bytes plus an endianness control
byte drawn through `GetBool`. -/
def GetUint16 (f : ByteSource) : Res Nat :=
  (GetNBytes 2 f).bind fun u16 s =>
    (GetBool s).bind fun littleEndian s' =>
      if littleEndian then .ok (leVal u16) s' else .ok (beVal u16) s'

/-- `GetUint32` (bytesource.go): a single `GetInt` byte widened (the Go
`uint32(i)` conversion is the identity on byte values). -/
def GetUint32 (f : ByteSource) : Res Nat :=
  (GetInt f).bind fun i s => .ok i s

/-- `GetUint64` (bytesource.go): eight raw bytes plus an endianness
control byte drawn through `GetBool`. -/
def GetUint64 (f : ByteSource) : Res Nat :=
  (GetNBytes 8 f).bind fun u64 s =>
    (GetBool s).bind fun littleEndian s' =>
      if littleEndian then .ok (leVal u64) s' else .ok (beVal u64) s'

/-- `GetBytes` (bytesource.go): emptiness check, one-byte length prefix via
`GetUint32`, zero-length fast path, `maxStringLen` cap check, then the
window `f.data[byteBegin : byteBegin+length]` where `byteBegin`, written
`s.position - 1` below, is the index of the length byte itself.  The Go `uint32`
overflow guard `byteBegin+length < byteBegin` is unsatisfiable over `Nat`;
for buffers below `2^32 - 256` bytes the guarded branch is unreachable in
Go as well, and when it would fire the result is the same `.err` state as
the preceding range check. -/
def GetBytes (f : ByteSource) : Res (List Nat) :=
  if f.dataTotal ≤ f.position then .err f
  else
    (GetUint32 f).bind fun length s =>
      if length = 0 then .ok [] s
      else if f.maxStringLen < s.position + length then .err s
      else if f.dataTotal ≤ s.position - 1 then .err s
      else if f.dataTotal ≤ s.position - 1 + length then .err s
      else .ok ((s.data.drop (s.position - 1)).take length)
        { s with position := s.position - 1 + length }

/-- `GetString` (bytesource.go): `GetBytes` reinterpreted as text (the
string is its byte list here). -/
def GetString (f : ByteSource) : Res (List Nat) :=
  (GetBytes f).bind fun b s => .ok b s

/-- The character loop of `GetStringFrom`: each iteration draws an index
seed via `GetInt` and maps it into `possibleChars` modulo its length; the
Go modulo panics when `possibleChars` is empty. -/
def getStringFromLoop (possibleChars : List Nat) : Nat → ByteSource → Res (List Nat)
  | 0, s => .ok [] s
  | n + 1, s =>
    match GetInt s with
    | .ok charIndex s' =>
      if h : possibleChars.length = 0 then .panic
      else
        match getStringFromLoop possibleChars n s' with
        | .ok cs s'' =>
          .ok (possibleChars.get ⟨charIndex % possibleChars.length,
            Nat.mod_lt _ (Nat.pos_of_ne_zero h)⟩ :: cs) s''
        | .err t => .err t
        | .panic => .panic
        | .fuelOut => .fuelOut
    | .err t => .err t
    | .panic => .panic
    | .fuelOut => .fuelOut

/-- `GetStringFrom` (bytesource.go): up-front remaining-bytes check (Go
`uint32` subtraction, which matches `Nat` subtraction since the cursor
never passes `dataTotal`), then `length` index draws. -/
def GetStringFrom (possibleChars : List Nat) (length : Nat) (f : ByteSource) :
    Res (List Nat) :=
  if f.dataTotal - f.position < length then .err f
  else getStringFromLoop possibleChars length f

/-- `GetFloat32` (bytesource.go): four raw bytes plus an endianness control
byte; the value is kept as its `math.Float32frombits` bit pattern, a pure
reinterpretation that does not touch the cursor. -/
def GetFloat32 (f : ByteSource) : Res Nat :=
  (GetNBytes 4 f).bind fun u32 s =>
    (GetBool s).bind fun littleEndian s' =>
      if littleEndian then .ok (leVal u32) s' else .ok (beVal u32) s'

/-- `GetFloat64` (bytesource.go): eight raw bytes plus an endianness
control byte; the value is kept as its `math.Float64frombits` bit
pattern. -/
def GetFloat64 (f : ByteSource) : Res Nat :=
  (GetNBytes 8 f).bind fun u64 s =>
    (GetBool s).bind fun littleEndian s' =>
      if littleEndian then .ok (leVal u64) s' else .ok (beVal u64) s'

/-- Two cursors over the same buffer with the same cap: every primitive
read only ever moves `position`. -/
def SameBuf (s s' : ByteSource) : Prop :=
  s'.data = s.data ∧ s'.dataTotal = s.dataTotal ∧ s'.maxStringLen = s.maxStringLen

end ByteSource

/-!
The type-directed generator (`fuzzStruct`, `GenerateStruct`).

Go's `reflect.Value` targets are embedded as a `Shape` (the structural kind
of the target type) together with a `GoValue` (its current contents).  The
in-place mutation of the target is made explicit: `fuzzStruct` receives the
current value and returns the updated one; an error outcome also carries the
value as the aborted call left it, because the reflect code mutates
subvalues in place before failing.  Cyclic (self-referential) type graphs
are representable through `Shape.sref`, an index into a type environment,
as Go reaches such types through pointers.  The embedding models the pure
generation path of `fuzzStruct`: every target is settable (exported) and no
custom functions are registered, which is the default configuration; the
`CanSet`/custom-function preambles of the Go code are therefore identity.
The recursion is indexed by explicit fuel; the Go function needs none
because the depth counter bounds the recursion, which is exactly the
content of the fuel-irrelevance theorem proved below.
-/

/-- Structural kind of a target type, mirroring the `reflect.Kind` switch
of `fuzzStruct`.  `sintLike` covers `Int, Int8, Int16, Int32, Int64`,
which share one case; `sref` is a named-type reference resolved through a
`TypeEnv`, allowing self-referential shapes; `sother` is any kind falling
into the `default` branch. -/
inductive Shape where
  | sstruct (fields : List Shape)
  | sstring
  | sslice (elem : Shape)
  | suint16
  | suint32
  | suint64
  | suint8
  | sintLike
  | sfloat32
  | sfloat64
  | sbool
  | smap (key value : Shape)
  | sptr (elem : Shape)
  | sref (i : Nat)
  | sother

/-- Contents of a target value. -/
inductive GoValue where
  | vstruct (fields : List GoValue)
  | vstring (bytes : List Nat)
  | vslice (elems : List GoValue)
  | vuint (n : Nat)
  | vint (n : Nat)
  | vfloat (bits : Nat)
  | vbool (b : Bool)
  | vmap (entries : List (GoValue × GoValue))
  | vptr (pointee : Option GoValue)
  | vother

/-- Type environment resolving `Shape.sref` indices, so that cyclic type
graphs (e.g. a struct holding a pointer to itself) have finite
descriptions. -/
def TypeEnv : Type := List Shape

mutual

/-- The Go zero value of a shape (what `reflect.New`/`MakeSlice` produce).
A `sref` directly at a field position without an intervening pointer,
slice or map would be an ill-formed (infinite) Go type, so its zero value
is the opaque `vother`. -/
def zeroValue : Shape → GoValue
  | .sstruct fields => .vstruct (zeroValues fields)
  | .sstring => .vstring []
  | .sslice _ => .vslice []
  | .suint16 => .vuint 0
  | .suint32 => .vuint 0
  | .suint64 => .vuint 0
  | .suint8 => .vuint 0
  | .sintLike => .vint 0
  | .sfloat32 => .vfloat 0
  | .sfloat64 => .vfloat 0
  | .sbool => .vbool false
  | .smap _ _ => .vmap []
  | .sptr _ => .vptr none
  | .sref _ => .vother
  | .sother => .vother

/-- Zero values of a list of field shapes. -/
def zeroValues : List Shape → List GoValue
  | [] => []
  | sh :: rest => zeroValue sh :: zeroValues rest

end

/-- Resolve one level of named-type indirection; any other shape is
already structural.  An out-of-range index resolves to `sother`. -/
def resolveShape (env : TypeEnv) : Shape → Shape
  | .sref i => (List.get? env i).getD .sother
  | sh => sh

/-- The `[]uint8` special case of the slice branch: Go compares the
printed element type with `uint8` (the byte kind). -/
def isByteSliceElem : Shape → Bool
  | .suint8 => true
  | _ => false

/-- The slice-branch element cap: `10000000` for byte slices, `50` for
every other element type. -/
def sliceCap (elem : Shape) : Nat :=
  if isByteSliceElem elem then 10000000 else 50

/-- Generator configuration (the `ConsumeFuzzer` knobs reached by
`fuzzStruct`).  `nilThreshold` embeds the Go comparison
`float32(randByte%10) < nilChance*10` as `randByte % 10 < nilThreshold`;
for the default `nilChance = 0.2` the float32 product `0.2 * 10` rounds to
exactly `2.0` and the compared left side is an exact small integer, so
`nilThreshold = 2` is exact.  `failUnknown` is
`unknownTypeStrategy == FailWithError`. -/
structure Config where
  nilThreshold : Nat
  maxDepth : Nat
  failUnknown : Bool
  deriving DecidableEq

/-- The `NewConsumer` defaults: `maxDepth = 100`, `nilChance = 0.2`,
strategies zero-valued (`IgnoreValue`). -/
def defaultConfig : Config := { nilThreshold := 2, maxDepth := 100, failUnknown := false }

/-- Outcome of a generator call on a target: the updated value, or an
error together with the value as the aborted in-place mutation left it,
or a panic, or fuel exhaustion of the embedding. -/
inductive GRes (α : Type) where
  | ok : α → ByteSource → GRes α
  | err : α → ByteSource → GRes α
  | panic : GRes α
  | fuelOut : GRes α

mutual

/-- Boolean equality of values, used for Go map key identity. -/
def GoValue.beq : GoValue → GoValue → Bool
  | .vstruct a, .vstruct b => GoValue.beqList a b
  | .vstring a, .vstring b => a == b
  | .vslice a, .vslice b => GoValue.beqList a b
  | .vuint a, .vuint b => a == b
  | .vint a, .vint b => a == b
  | .vfloat a, .vfloat b => a == b
  | .vbool a, .vbool b => a == b
  | .vmap a, .vmap b => GoValue.beqPairs a b
  | .vptr (some a), .vptr (some b) => GoValue.beq a b
  | .vptr none, .vptr none => true
  | .vother, .vother => true
  | _, _ => false

/-- Boolean equality of value lists. -/
def GoValue.beqList : List GoValue → List GoValue → Bool
  | [], [] => true
  | a :: as, b :: bs => GoValue.beq a b && GoValue.beqList as bs
  | _, _ => false

/-- Boolean equality of entry lists. -/
def GoValue.beqPairs : List (GoValue × GoValue) → List (GoValue × GoValue) → Bool
  | [], [] => true
  | (k, v) :: as, (k', v') :: bs =>
    GoValue.beq k k' && GoValue.beq v v' && GoValue.beqPairs as bs
  | _, _ => false

end

/-- `reflect.Value.SetMapIndex` on the entry list: overwrite an existing
equal key (Go map last-write-wins), otherwise append. -/
def setMapIndex : List (GoValue × GoValue) → GoValue → GoValue → List (GoValue × GoValue)
  | [], k, v => [(k, v)]
  | (k', v') :: rest, k, v =>
    if GoValue.beq k' k then (k, v) :: rest else (k', v') :: setMapIndex rest k v

/-- The field loop of the struct branch: fields are generated in
declaration order, each mutated in place, and a failure aborts with the
already-updated prefix and the untouched remaining fields. -/
def fuzzFields (F : Shape → GoValue → ByteSource → GRes GoValue) :
    List (Shape × GoValue) → ByteSource → GRes (List GoValue)
  | [], s => .ok [] s
  | (sh, v) :: rest, s =>
    match F sh v s with
    | .ok v' s' =>
      match fuzzFields F rest s' with
      | .ok vs s'' => .ok (v' :: vs) s''
      | .err vs s'' => .err (v' :: vs) s''
      | .panic => .panic
      | .fuelOut => .fuelOut
    | .err v' s' => .err (v' :: rest.map Prod.snd) s'
    | .panic => .panic
    | .fuelOut => .fuelOut

/-- The element loop of the slice branch over the freshly allocated
zero-filled backing slice `uu`, carrying the running index `i`.  A failed
element with `i >= 10` turns into overall success keeping the full-length
slice (populated prefix, the failed element as the aborted call left it,
zero for every slot after it); a failure with `i < 10` is an error. -/
def fuzzSliceLoop (F : GoValue → ByteSource → GRes GoValue) (zero : GoValue) :
    Nat → Nat → ByteSource → GRes (List GoValue)
  | 0, _, s => .ok [] s
  | n + 1, i, s =>
    match F zero s with
    | .ok v s' =>
      match fuzzSliceLoop F zero n (i + 1) s' with
      | .ok vs s'' => .ok (v :: vs) s''
      | .err vs s'' => .err (v :: vs) s''
      | .panic => .panic
      | .fuelOut => .fuelOut
    | .err v s' =>
      if 10 ≤ i then .ok (v :: List.replicate n zero) s'
      else .err (v :: List.replicate n zero) s'
    | .panic => .panic
    | .fuelOut => .fuelOut

/-- The entry loop of the map branch: each iteration generates a fresh
zero key and zero value and inserts them; a failure aborts keeping the
entries inserted so far (the target map was already allocated and set). -/
def fuzzMapLoop (F : Shape → GoValue → ByteSource → GRes GoValue)
    (key value : Shape) :
    Nat → List (GoValue × GoValue) → ByteSource → GRes (List (GoValue × GoValue))
  | 0, entries, s => .ok entries s
  | n + 1, entries, s =>
    match F key (zeroValue key) s with
    | .ok k s' =>
      match F value (zeroValue value) s' with
      | .ok v s'' => fuzzMapLoop F key value n (setMapIndex entries k v) s''
      | .err _ s'' => .err entries s''
      | .panic => .panic
      | .fuelOut => .fuelOut
    | .err _ s' => .err entries s'
    | .panic => .panic
    | .fuelOut => .fuelOut

/-- Current field contents of a struct target (zero-filled fallback for an
ill-typed value, which never arises from well-typed targets). -/
def structFields (fields : List Shape) : GoValue → List GoValue
  | .vstruct vs => vs
  | _ => zeroValues fields

/-- `fuzzStruct` (the consumer), fuel-indexed.  Entered at `depth`, it
returns immediately when `depth >= maxDepth`; otherwise the depth for all
recursive entries is `depth + 1` (the Go increment paired with the
deferred decrement) and the shape is dispatched as in the `reflect.Kind`
switch.  The value parameter `v0` is the target's current contents. -/
def fuzzStruct (env : TypeEnv) (cfg : Config) :
    Nat → Nat → Shape → GoValue → ByteSource → GRes GoValue
  | 0, _, _, _, _ => .fuelOut
  | fuel + 1, depth, shape, v0, s =>
    if cfg.maxDepth ≤ depth then .ok v0 s
    else
      match resolveShape env shape with
      | .sstruct fields =>
        match fuzzFields (fuzzStruct env cfg fuel (depth + 1))
            (fields.zip (structFields fields v0)) s with
        | .ok vs s' => .ok (.vstruct vs) s'
        | .err vs s' => .err (.vstruct vs) s'
        | .panic => .panic
        | .fuelOut => .fuelOut
      | .sstring =>
        match ByteSource.GetString s with
        | .ok str s' => .ok (.vstring str) s'
        | .err s' => .err v0 s'
        | .panic => .panic
        | .fuelOut => .fuelOut
      | .sslice elem =>
        match ByteSource.GetByte s with
        | .ok randByte s1 =>
          if randByte % 10 < cfg.nilThreshold then .ok v0 s1
          else
            match ByteSource.GetUint32 s1 with
            | .ok randQty s2 =>
              match fuzzSliceLoop
                  (fuzzStruct env cfg fuel (depth + 1) elem) (zeroValue elem)
                  (randQty % sliceCap elem) 0 s2 with
              | .ok vs s' => .ok (.vslice vs) s'
              | .err _ s' => .err v0 s'
              | .panic => .panic
              | .fuelOut => .fuelOut
            | .err s2 => .err v0 s2
            | .panic => .panic
            | .fuelOut => .fuelOut
        | .err s1 => .err v0 s1
        | .panic => .panic
        | .fuelOut => .fuelOut
      | .suint16 =>
        match ByteSource.GetUint16 s with
        | .ok n s' => .ok (.vuint n) s'
        | .err s' => .err v0 s'
        | .panic => .panic
        | .fuelOut => .fuelOut
      | .suint32 =>
        match ByteSource.GetUint32 s with
        | .ok n s' => .ok (.vuint n) s'
        | .err s' => .err v0 s'
        | .panic => .panic
        | .fuelOut => .fuelOut
      | .suint64 =>
        match ByteSource.GetInt s with
        | .ok n s' => .ok (.vuint n) s'
        | .err s' => .err v0 s'
        | .panic => .panic
        | .fuelOut => .fuelOut
      | .sintLike =>
        match ByteSource.GetInt s with
        | .ok n s' => .ok (.vint n) s'
        | .err s' => .err v0 s'
        | .panic => .panic
        | .fuelOut => .fuelOut
      | .sfloat32 =>
        match ByteSource.GetFloat32 s with
        | .ok bits s' => .ok (.vfloat bits) s'
        | .err s' => .err v0 s'
        | .panic => .panic
        | .fuelOut => .fuelOut
      | .sfloat64 =>
        match ByteSource.GetFloat64 s with
        | .ok bits s' => .ok (.vfloat bits) s'
        | .err s' => .err v0 s'
        | .panic => .panic
        | .fuelOut => .fuelOut
      | .sbool =>
        match ByteSource.GetBool s with
        | .ok b s' => .ok (.vbool b) s'
        | .err s' => .err v0 s'
        | .panic => .panic
        | .fuelOut => .fuelOut
      | .smap key value =>
        match ByteSource.GetByte s with
        | .ok randByte s1 =>
          if randByte % 10 < cfg.nilThreshold then .ok v0 s1
          else
            match ByteSource.GetInt s1 with
            | .ok randQty s2 =>
              match fuzzMapLoop (fuzzStruct env cfg fuel (depth + 1))
                  key value (randQty % 50) [] s2 with
              | .ok entries s' => .ok (.vmap entries) s'
              | .err entries s' => .err (.vmap entries) s'
              | .panic => .panic
              | .fuelOut => .fuelOut
            | .err s2 => .err (.vmap []) s2
            | .panic => .panic
            | .fuelOut => .fuelOut
        | .err s1 => .err v0 s1
        | .panic => .panic
        | .fuelOut => .fuelOut
      | .sptr elem =>
        match ByteSource.GetByte s with
        | .ok randByte s1 =>
          if randByte % 10 < cfg.nilThreshold then .ok v0 s1
          else
            match fuzzStruct env cfg fuel (depth + 1) elem (zeroValue elem) s1 with
            | .ok pv s' => .ok (.vptr (some pv)) s'
            | .err pv s' => .err (.vptr (some pv)) s'
            | .panic => .panic
            | .fuelOut => .fuelOut
        | .err s1 => .err v0 s1
        | .panic => .panic
        | .fuelOut => .fuelOut
      | .suint8 =>
        match ByteSource.GetByte s with
        | .ok b s' => .ok (.vuint b) s'
        | .err s' => .err v0 s'
        | .panic => .panic
        | .fuelOut => .fuelOut
      | .sref _ => .ok v0 s
      | .sother => if cfg.failUnknown then .err v0 s else .ok v0 s

/-- `GenerateStruct`: one top-level traversal starting at depth 0 from the
zero value of the target shape.  Fuel `maxDepth + 1` is sufficient by the
fuel-irrelevance theorem below. -/
def GenerateStruct (env : TypeEnv) (cfg : Config) (shape : Shape)
    (s : ByteSource) : GRes GoValue :=
  fuzzStruct env cfg (cfg.maxDepth + 1) 0 shape (zeroValue shape) s

/-- The tail of the slice branch once the element count is fixed: run the
element loop over `count` freshly allocated zero slots and either install
the resulting slice or propagate the error leaving the target untouched.
`fuzzStruct`'s slice case is proved below to reduce to this with
`count = seed % sliceCap elem`. -/
def sliceBranch (env : TypeEnv) (cfg : Config) (fuel depth : Nat) (elem : Shape)
    (v0 : GoValue) (count : Nat) (s2 : ByteSource) : GRes GoValue :=
  match fuzzSliceLoop (fuzzStruct env cfg fuel (depth + 1) elem) (zeroValue elem)
      count 0 s2 with
  | .ok vs s' => .ok (.vslice vs) s'
  | .err _ s' => .err v0 s'
  | .panic => .panic
  | .fuelOut => .fuelOut

/-!
Characterization lemmas for the primitive reads: what each outcome implies
about the returned value and cursor.  These feed all cursor-invariant
claims.
-/

namespace ByteSource

theorem sameBuf_refl (s : ByteSource) : SameBuf s s := ⟨rfl, rfl, rfl⟩

theorem sameBuf_trans {s t u : ByteSource} (h1 : SameBuf s t) (h2 : SameBuf t u) :
    SameBuf s u :=
  ⟨h2.1.trans h1.1, h2.2.1.trans h1.2.1, h2.2.2.trans h1.2.2⟩

theorem sameBuf_setPos (s : ByteSource) (p : Nat) :
    SameBuf s { s with position := p } := ⟨rfl, rfl, rfl⟩

theorem getByte_ok_inv {s b s'} (h : GetByte s = .ok b s') :
    s' = { s with position := s.position + 1 } ∧
      s.data.get? s.position = some b ∧ s.position < s.dataTotal := by
  unfold GetByte at h
  split at h
  · exact absurd h (by simp)
  next hlt =>
    cases hg : s.data.get? s.position with
    | none => rw [hg] at h; exact absurd h (by simp)
    | some c =>
      rw [hg] at h
      cases h
      exact ⟨rfl, rfl, Nat.lt_of_not_le hlt⟩

theorem getByte_err_inv {s s'} (h : GetByte s = .err s') :
    s' = s ∧ s.dataTotal ≤ s.position := by
  unfold GetByte at h
  split at h
  next hle => cases h; exact ⟨rfl, hle⟩
  next =>
    cases hg : s.data.get? s.position with
    | none => rw [hg] at h; exact absurd h (by simp)
    | some c => rw [hg] at h; exact absurd h (by simp)

theorem getByte_ne_panic {s} (hlen : s.dataTotal = s.data.length) :
    GetByte s ≠ .panic := by
  unfold GetByte
  split
  · simp
  next hlt =>
    cases hg : s.data.get? s.position with
    | none =>
      rw [List.get?_eq_none] at hg
      exact absurd (hlen ▸ hg) (Nat.not_le.mpr (Nat.lt_of_not_le hlt))
    | some c => simp

theorem getByte_ne_fuelOut {s} : GetByte s ≠ .fuelOut := by
  unfold GetByte
  split
  · simp
  · cases hg : s.data.get? s.position <;> simp

theorem getInt_eq_getByte (s : ByteSource) : GetInt s = GetByte s := rfl

theorem getUint32_eq_getInt (s : ByteSource) : GetUint32 s = GetInt s := by
  unfold GetUint32 Res.bind
  cases h : GetInt s <;> rfl

theorem getBool_ok_inv {s b s'} (h : GetBool s = .ok b s') :
    s' = { s with position := s.position + 1 } ∧
      (∃ c, s.data.get? (s.position + 1) = some c ∧ b = (c % 2 == 0)) ∧
      s.position < s.dataTotal := by
  unfold GetBool at h
  split at h
  · exact absurd h (by simp)
  next hlt =>
    cases hg : s.data.get? (s.position + 1) with
    | none => simp only [hg] at h; exact absurd h (by simp)
    | some c =>
      simp only [hg] at h
      cases h
      exact ⟨rfl, ⟨c, rfl, rfl⟩, Nat.lt_of_not_le hlt⟩

theorem getBool_err_inv {s s'} (h : GetBool s = .err s') :
    s' = s ∧ s.dataTotal ≤ s.position := by
  unfold GetBool at h
  split at h
  next hle => cases h; exact ⟨rfl, hle⟩
  next =>
    cases hg : s.data.get? (s.position + 1) with
    | none => simp only [hg] at h; exact absurd h (by simp)
    | some c => simp only [hg] at h; exact absurd h (by simp)

theorem getBool_ne_fuelOut {s} : GetBool s ≠ .fuelOut := by
  unfold GetBool
  split
  · simp
  · cases hg : s.data.get? (s.position + 1) <;> simp [hg]

theorem getBool_ne_panic {s} (hlen : s.dataTotal = s.data.length)
    (hrem : s.position + 1 < s.dataTotal) : GetBool s ≠ .panic := by
  unfold GetBool
  split
  · simp
  next =>
    cases hg : s.data.get? (s.position + 1) with
    | none =>
      rw [List.get?_eq_none] at hg
      exact absurd (hlen ▸ hg) (Nat.not_le.mpr hrem)
    | some c => simp [hg]

theorem getInt_ok_lt256 {s v s'} (hbytes : ∀ b ∈ s.data, b < 256)
    (h : GetInt s = .ok v s') : v < 256 := by
  obtain ⟨-, hg, -⟩ := getByte_ok_inv (getInt_eq_getByte s ▸ h)
  exact hbytes v (List.get?_mem hg)

theorem getNLoop_ok_inv : ∀ {n : Nat} {s bs s'}, getNLoop n s = .ok bs s' →
    SameBuf s s' ∧ s'.position = s.position + n ∧ bs.length = n ∧
      (s.position ≤ s.dataTotal → s'.position ≤ s.dataTotal)
  | 0, s, bs, s', h => by
    cases h
    exact ⟨sameBuf_refl s, rfl, rfl, fun hle => hle⟩
  | n + 1, s, bs, s', h => by
    unfold getNLoop at h
    cases hb : GetByte s with
    | ok b t =>
      simp only [hb] at h
      cases hl : getNLoop n t with
      | ok bs2 u =>
        simp only [hl] at h
        cases h
        obtain ⟨ht, hg, hlt⟩ := getByte_ok_inv hb
        obtain ⟨hsb, hpos, hlen, hbound⟩ := getNLoop_ok_inv hl
        subst ht
        refine ⟨hsb, by simp at hpos ⊢; omega, by simp [hlen], fun _ => ?_⟩
        exact hbound (by simpa using Nat.succ_le_of_lt hlt)
      | err t' => simp only [hl] at h; cases h
      | panic => simp only [hl] at h; cases h
      | fuelOut => simp only [hl] at h; cases h
    | err t => simp only [hb] at h; cases h
    | panic => simp only [hb] at h; cases h
    | fuelOut => simp only [hb] at h; cases h

theorem getNLoop_err_inv : ∀ {n : Nat} {s s'}, s.position ≤ s.dataTotal →
    getNLoop n s = .err s' →
    SameBuf s s' ∧ s'.position = s.dataTotal ∧ s.position ≤ s'.position
  | 0, s, s', _, h => by cases h
  | n + 1, s, s', hle, h => by
    unfold getNLoop at h
    cases hb : GetByte s with
    | ok b t =>
      simp only [hb] at h
      cases hl : getNLoop n t with
      | ok bs2 u => simp only [hl] at h; cases h
      | err t' =>
        simp only [hl] at h
        cases h
        obtain ⟨ht, -, hlt⟩ := getByte_ok_inv hb
        subst ht
        obtain ⟨hsb, hpos, hmono⟩ :=
          getNLoop_err_inv (by simpa using Nat.succ_le_of_lt hlt) hl
        refine ⟨hsb, by simpa using hpos, ?_⟩
        simp at hmono
        omega
      | panic => simp only [hl] at h; cases h
      | fuelOut => simp only [hl] at h; cases h
    | err t =>
      simp only [hb] at h
      cases h
      obtain ⟨ht, hge⟩ := getByte_err_inv hb
      cases ht
      exact ⟨sameBuf_refl _, le_antisymm hle hge, le_refl _⟩
    | panic => simp only [hb] at h; cases h
    | fuelOut => simp only [hb] at h; cases h

theorem getNLoop_ne_panic : ∀ {n : Nat} {s}, s.dataTotal = s.data.length →
    getNLoop n s ≠ .panic
  | 0, s, _, h => by cases h
  | n + 1, s, hlen, h => by
    unfold getNLoop at h
    cases hb : GetByte s with
    | ok b t =>
      simp only [hb] at h
      cases hl : getNLoop n t with
      | ok bs2 u => simp only [hl] at h; cases h
      | err t' => simp only [hl] at h; cases h
      | panic =>
        obtain ⟨ht, -, -⟩ := getByte_ok_inv hb
        subst ht
        exact absurd hl (getNLoop_ne_panic hlen)
      | fuelOut => simp only [hl] at h; cases h
    | err t => simp only [hb] at h; cases h
    | panic => exact absurd hb (getByte_ne_panic hlen)
    | fuelOut => simp only [hb] at h; cases h

theorem getNLoop_ne_fuelOut : ∀ {n : Nat} {s}, getNLoop n s ≠ .fuelOut
  | 0, s, h => by cases h
  | n + 1, s, h => by
    unfold getNLoop at h
    cases hb : GetByte s with
    | ok b t =>
      simp only [hb] at h
      cases hl : getNLoop n t with
      | ok bs2 u => simp only [hl] at h; cases h
      | err t' => simp only [hl] at h; cases h
      | panic => simp only [hl] at h; cases h
      | fuelOut => exact absurd hl getNLoop_ne_fuelOut
    | err t => simp only [hb] at h; cases h
    | panic => simp only [hb] at h; cases h
    | fuelOut => exact absurd hb getByte_ne_fuelOut

theorem getNBytes_ok_inv {n : Nat} {s bs s'} (h : GetNBytes n s = .ok bs s') :
    SameBuf s s' ∧ s'.position = s.position + n ∧ bs.length = n ∧
      s.position < s.dataTotal ∧
      (s.position ≤ s.dataTotal → s'.position ≤ s.dataTotal) := by
  unfold GetNBytes at h
  split at h
  · cases h
  next hlt =>
    obtain ⟨hsb, hpos, hlen, hbound⟩ := getNLoop_ok_inv h
    exact ⟨hsb, hpos, hlen, Nat.lt_of_not_le hlt, hbound⟩

theorem getNBytes_err_inv {n : Nat} {s s'} (hle : s.position ≤ s.dataTotal)
    (h : GetNBytes n s = .err s') :
    SameBuf s s' ∧ s.position ≤ s'.position ∧ s'.position ≤ s.dataTotal ∧
      (s' = s ∨ s'.position = s.dataTotal) := by
  unfold GetNBytes at h
  split at h
  · cases h; exact ⟨sameBuf_refl s, le_refl _, hle, Or.inl rfl⟩
  next hlt =>
    obtain ⟨hsb, hpos, hmono⟩ := getNLoop_err_inv hle h
    exact ⟨hsb, hmono, le_of_eq hpos, Or.inr hpos⟩

theorem getNBytes_ne_panic {n : Nat} {s} (hlen : s.dataTotal = s.data.length) :
    GetNBytes n s ≠ .panic := by
  unfold GetNBytes
  split
  · simp
  · exact getNLoop_ne_panic hlen

theorem getNBytes_ne_fuelOut {n : Nat} {s} : GetNBytes n s ≠ .fuelOut := by
  unfold GetNBytes
  split
  · simp
  · exact getNLoop_ne_fuelOut

/-- Shared shape of `GetUint16`, `GetUint64`, `GetFloat32`, `GetFloat64`:
`k` raw bytes via `GetNBytes`, then the endianness control byte via
`GetBool`.  Success consumes `k + 1` bytes. -/
theorem nbBool_ok_inv {k : Nat} {s : ByteSource} {v : Nat} {s'}
    (h : ((GetNBytes k s).bind fun bs t => (GetBool t).bind fun le t' =>
        if le then Res.ok (leVal bs) t' else Res.ok (beVal bs) t') = .ok v s') :
    SameBuf s s' ∧ s'.position = s.position + (k + 1) ∧
      s'.position ≤ s.dataTotal := by
  cases hnb : GetNBytes k s with
  | ok bs t =>
    rw [hnb] at h
    simp only [Res.bind] at h
    cases hbl : GetBool t with
    | ok le u =>
      rw [hbl] at h
      simp only [Res.bind] at h
      obtain ⟨hsb, hpos, -, -, -⟩ := getNBytes_ok_inv hnb
      obtain ⟨hu, -, hlt⟩ := getBool_ok_inv hbl
      subst hu
      have hs' : s' = { t with position := t.position + 1 } := by
        split at h <;> (cases h; rfl)
      subst hs'
      refine ⟨⟨hsb.1, hsb.2.1, hsb.2.2⟩, ?_, ?_⟩
      · show t.position + 1 = s.position + (k + 1)
        omega
      · show t.position + 1 ≤ s.dataTotal
        rw [← hsb.2.1]
        exact Nat.succ_le_of_lt hlt
    | err u => rw [hbl] at h; exact absurd h (by simp [Res.bind])
    | panic => rw [hbl] at h; exact absurd h (by simp [Res.bind])
    | fuelOut => rw [hbl] at h; exact absurd h (by simp [Res.bind])
  | err t => rw [hnb] at h; exact absurd h (by simp [Res.bind])
  | panic => rw [hnb] at h; exact absurd h (by simp [Res.bind])
  | fuelOut => rw [hnb] at h; exact absurd h (by simp [Res.bind])

/-- Error half of the shared shape: the cursor is either untouched (the
up-front check) or parked at `dataTotal` after a partial read. -/
theorem nbBool_err_inv {k : Nat} {s : ByteSource} {s'}
    (hle : s.position ≤ s.dataTotal)
    (h : ((GetNBytes k s).bind fun bs t => (GetBool t).bind fun le t' =>
        if le then Res.ok (leVal bs) t' else Res.ok (beVal bs) t') = .err s') :
    SameBuf s s' ∧ s.position ≤ s'.position ∧ s'.position ≤ s.dataTotal ∧
      (s' = s ∨ s'.position = s.dataTotal) := by
  cases hnb : GetNBytes k s with
  | ok bs t =>
    rw [hnb] at h
    simp only [Res.bind] at h
    cases hbl : GetBool t with
    | ok le u =>
      rw [hbl] at h
      simp only [Res.bind] at h
      split at h <;> exact absurd h (by simp)
    | err u =>
      rw [hbl] at h
      simp only [Res.bind] at h
      cases h
      obtain ⟨hsb, hpos, -, -, hbound⟩ := getNBytes_ok_inv hnb
      obtain ⟨hu, hge⟩ := getBool_err_inv hbl
      subst hu
      have : s'.position = s.dataTotal :=
        le_antisymm (hsb.2.1 ▸ hbound hle) (hsb.2.1 ▸ hge)
      exact ⟨hsb, by omega, le_of_eq this, Or.inr this⟩
    | panic => rw [hbl] at h; exact absurd h (by simp [Res.bind])
    | fuelOut => rw [hbl] at h; exact absurd h (by simp [Res.bind])
  | err t =>
    rw [hnb] at h
    cases h
    exact getNBytes_err_inv hle hnb
  | panic => rw [hnb] at h; exact absurd h (by simp [Res.bind])
  | fuelOut => rw [hnb] at h; exact absurd h (by simp [Res.bind])

theorem nbBool_ne_fuelOut {k : Nat} {s : ByteSource} :
    ((GetNBytes k s).bind fun bs t => (GetBool t).bind fun le t' =>
        if le then Res.ok (leVal bs) t' else Res.ok (beVal bs) t') ≠ .fuelOut := by
  cases hnb : GetNBytes k s with
  | ok bs t =>
    simp only [hnb, Res.bind]
    cases hbl : GetBool t with
    | ok le u => simp only [hbl, Res.bind]; split <;> simp
    | err u => simp [hbl, Res.bind]
    | panic => simp [hbl, Res.bind]
    | fuelOut => exact absurd hbl getBool_ne_fuelOut
  | err t => simp [hnb, Res.bind]
  | panic => simp [hnb, Res.bind]
  | fuelOut => exact absurd hnb getNBytes_ne_fuelOut

theorem getUint32_ok_inv {s v s'} (h : GetUint32 s = .ok v s') :
    s' = { s with position := s.position + 1 } ∧
      s.data.get? s.position = some v ∧ s.position < s.dataTotal :=
  getByte_ok_inv ((getInt_eq_getByte s) ▸ (getUint32_eq_getInt s) ▸ h)

theorem getUint32_err_inv {s s'} (h : GetUint32 s = .err s') :
    s' = s ∧ s.dataTotal ≤ s.position :=
  getByte_err_inv ((getInt_eq_getByte s) ▸ (getUint32_eq_getInt s) ▸ h)

theorem getUint32_ne_fuelOut {s} : GetUint32 s ≠ .fuelOut := by
  rw [getUint32_eq_getInt, getInt_eq_getByte]
  exact getByte_ne_fuelOut

theorem getBytes_ok_inv {s bs s'} (h : GetBytes s = .ok bs s') :
    SameBuf s s' ∧ s.position < s.dataTotal ∧
      ∃ L, s.data.get? s.position = some L ∧
        ((L = 0 ∧ bs = [] ∧ s'.position = s.position + 1) ∨
         (L ≠ 0 ∧ s'.position = s.position + L ∧ s'.position < s.dataTotal ∧
           s.position + 1 + L ≤ s.maxStringLen ∧
           bs = (s.data.drop s.position).take L)) := by
  unfold GetBytes at h
  split at h
  · cases h
  next hlt =>
    cases hu : GetUint32 s with
    | ok L s1 =>
      simp only [hu, Res.bind] at h
      obtain ⟨hs1, hg, hpos⟩ := getUint32_ok_inv hu
      subst hs1
      split at h
      next hL0 =>
        cases h
        exact ⟨⟨rfl, rfl, rfl⟩, hpos, L, hg, Or.inl ⟨hL0, rfl, rfl⟩⟩
      next hL0 =>
        split at h
        · cases h
        next hcap =>
          split at h
          · cases h
          next hbb =>
            split at h
            · cases h
            next hend =>
              cases h
              simp only [show ({ s with position := s.position + 1 } :
                ByteSource).position - 1 = s.position from rfl] at hcap hbb hend ⊢
              refine ⟨⟨rfl, rfl, rfl⟩, hpos, L, hg,
                Or.inr ⟨hL0, rfl, Nat.lt_of_not_le hend, ?_, rfl⟩⟩
              simpa using Nat.le_of_not_lt hcap
    | err s1 => simp only [hu, Res.bind] at h; cases h
    | panic => simp only [hu, Res.bind] at h; cases h
    | fuelOut => exact absurd hu getUint32_ne_fuelOut

theorem getBytes_err_inv {s s'} (hle : s.position ≤ s.dataTotal)
    (h : GetBytes s = .err s') :
    SameBuf s s' ∧ s.position ≤ s'.position ∧ s'.position ≤ s.dataTotal ∧
      (s' = s ∨ s'.position = s.position + 1) := by
  unfold GetBytes at h
  split at h
  · cases h
    exact ⟨sameBuf_refl _, le_refl _, hle, Or.inl rfl⟩
  next hlt =>
    cases hu : GetUint32 s with
    | ok L s1 =>
      simp only [hu, Res.bind] at h
      obtain ⟨hs1, -, hpos⟩ := getUint32_ok_inv hu
      subst hs1
      have hstep : s.position + 1 ≤ s.dataTotal := Nat.succ_le_of_lt hpos
      split at h
      · cases h
      · split at h
        next =>
          cases h
          exact ⟨⟨rfl, rfl, rfl⟩, Nat.le_succ _, hstep, Or.inr rfl⟩
        next =>
          split at h
          next =>
            cases h
            exact ⟨⟨rfl, rfl, rfl⟩, Nat.le_succ _, hstep, Or.inr rfl⟩
          next =>
            split at h
            next =>
              cases h
              exact ⟨⟨rfl, rfl, rfl⟩, Nat.le_succ _, hstep, Or.inr rfl⟩
            next => cases h
    | err s1 =>
      simp only [hu, Res.bind] at h
      cases h
      obtain ⟨hs1, hge⟩ := getUint32_err_inv hu
      cases hs1
      exact ⟨sameBuf_refl _, le_refl _, hle, Or.inl rfl⟩
    | panic => simp only [hu, Res.bind] at h; cases h
    | fuelOut => exact absurd hu getUint32_ne_fuelOut

/-- Every post-length-prefix failure of `GetBytes` — a nonzero decoded
length that cannot be served from the buffer — returns the error with the
cursor exactly one past the original position (the consumed length byte),
never rolled back. -/
theorem getBytes_len_too_big {s L s1} (h1 : GetUint32 s = .ok L s1)
    (hL : L ≠ 0) (hbig : s.dataTotal ≤ s.position + L) :
    GetBytes s = .err s1 := by
  obtain ⟨hs1, -, hpos⟩ := getUint32_ok_inv h1
  unfold GetBytes
  rw [if_neg (Nat.not_le.mpr hpos), h1]
  simp only [Res.bind]
  rw [if_neg hL]
  subst hs1
  have hbb : ({ s with position := s.position + 1 } : ByteSource).position - 1
      = s.position := rfl
  split
  · rfl
  · rw [hbb, if_neg (Nat.not_le.mpr hpos), if_pos (by simpa using hbig)]

theorem getBytes_ne_fuelOut {s} : GetBytes s ≠ .fuelOut := by
  unfold GetBytes
  split
  · simp
  · cases hu : GetUint32 s with
    | ok L s1 =>
      simp only [Res.bind]
      split
      · simp
      · split
        · simp
        · split
          · simp
          · split <;> simp
    | err s1 => simp [Res.bind]
    | panic => simp [Res.bind]
    | fuelOut => exact absurd hu getUint32_ne_fuelOut

theorem getString_eq_getBytes (s : ByteSource) : GetString s = GetBytes s := by
  unfold GetString Res.bind
  cases h : GetBytes s <;> rfl

theorem getStringFromLoop_ok_inv {chars : List Nat} :
    ∀ {n : Nat} {s cs s'}, getStringFromLoop chars n s = .ok cs s' →
    SameBuf s s' ∧ s'.position = s.position + n ∧ cs.length = n ∧
      (s.position ≤ s.dataTotal → s'.position ≤ s.dataTotal)
  | 0, s, cs, s', h => by
    cases h
    exact ⟨sameBuf_refl s, rfl, rfl, fun hle => hle⟩
  | n + 1, s, cs, s', h => by
    unfold getStringFromLoop at h
    cases hi : GetInt s with
    | ok ci t =>
      simp only [hi] at h
      split at h
      · cases h
      next hne =>
        cases hl : getStringFromLoop chars n t with
        | ok cs2 u =>
          simp only [hl] at h
          cases h
          obtain ⟨ht, -, hlt⟩ := getByte_ok_inv ((getInt_eq_getByte s) ▸ hi)
          subst ht
          obtain ⟨hsb, hpos, hlen, hbound⟩ := getStringFromLoop_ok_inv hl
          refine ⟨hsb, by simp at hpos ⊢; omega, by simp [hlen], fun _ => ?_⟩
          exact hbound (by simpa using Nat.succ_le_of_lt hlt)
        | err t' => simp only [hl] at h; cases h
        | panic => simp only [hl] at h; cases h
        | fuelOut => simp only [hl] at h; cases h
    | err t => simp only [hi] at h; cases h
    | panic => simp only [hi] at h; cases h
    | fuelOut => simp only [hi] at h; cases h

theorem getStringFromLoop_no_err {chars : List Nat} :
    ∀ {n : Nat} {s t}, n ≤ s.dataTotal - s.position →
      getStringFromLoop chars n s ≠ .err t
  | 0, s, t, _, h => by cases h
  | n + 1, s, t, hrem, h => by
    unfold getStringFromLoop at h
    cases hi : GetInt s with
    | ok ci u =>
      simp only [hi] at h
      split at h
      · cases h
      next hne =>
        cases hl : getStringFromLoop chars n u with
        | ok cs2 w => simp only [hl] at h; cases h
        | err t' =>
          obtain ⟨hu, -, hlt⟩ := getByte_ok_inv ((getInt_eq_getByte s) ▸ hi)
          subst hu
          exact absurd hl (getStringFromLoop_no_err (by simp; omega) )
        | panic => simp only [hl] at h; cases h
        | fuelOut => simp only [hl] at h; cases h
    | err u =>
      simp only [hi] at h
      cases h
      obtain ⟨-, hge⟩ := getByte_err_inv ((getInt_eq_getByte s) ▸ hi)
      omega
    | panic => simp only [hi] at h; cases h
    | fuelOut => simp only [hi] at h; cases h

theorem getStringFrom_ok_inv {chars : List Nat} {len : Nat} {s cs s'}
    (h : GetStringFrom chars len s = .ok cs s') :
    SameBuf s s' ∧ s'.position = s.position + len ∧ cs.length = len ∧
      (s.position ≤ s.dataTotal → s'.position ≤ s.dataTotal) := by
  unfold GetStringFrom at h
  split at h
  · cases h
  · exact getStringFromLoop_ok_inv h

theorem getStringFrom_err_inv {chars : List Nat} {len : Nat} {s s'}
    (h : GetStringFrom chars len s = .err s') :
    s' = s ∧ s.dataTotal - s.position < len := by
  unfold GetStringFrom at h
  split at h
  next hlt => cases h; exact ⟨rfl, hlt⟩
  next hge => exact absurd h (getStringFromLoop_no_err (Nat.le_of_not_lt hge))

end ByteSource

/-!
Generator lemmas: the slice-loop policy, the unfolding of the slice
branch, and fuel irrelevance.
-/

theorem fuzzSliceLoop_ok_length {F : GoValue → ByteSource → GRes GoValue}
    {zero : GoValue} :
    ∀ {n i : Nat} {s vs s'}, fuzzSliceLoop F zero n i s = .ok vs s' →
      vs.length = n
  | 0, i, s, vs, s', h => by cases h; rfl
  | n + 1, i, s, vs, s', h => by
    unfold fuzzSliceLoop at h
    cases hF : F zero s with
    | ok v t =>
      simp only [hF] at h
      cases hl : fuzzSliceLoop F zero n (i + 1) t with
      | ok vs2 u =>
        simp only [hl] at h
        cases h
        simp [fuzzSliceLoop_ok_length hl]
      | err vs2 u => simp only [hl] at h; cases h
      | panic => simp only [hl] at h; cases h
      | fuelOut => simp only [hl] at h; cases h
    | err v t =>
      simp only [hF] at h
      split at h
      · cases h; simp
      · cases h
    | panic => simp only [hF] at h; cases h
    | fuelOut => simp only [hF] at h; cases h

/-- A failed element generation at running index `i < 10` aborts the whole
slice loop with the error. -/
theorem fuzzSliceLoop_err_lt10 {F : GoValue → ByteSource → GRes GoValue}
    {zero v : GoValue} {n i : Nat} {s t}
    (hF : F zero s = .err v t) (hi : i < 10) :
    fuzzSliceLoop F zero (n + 1) i s = .err (v :: List.replicate n zero) t := by
  unfold fuzzSliceLoop
  simp only [hF]
  rw [if_neg (Nat.not_le.mpr hi)]

/-- A failed element generation at running index `i >= 10` turns into
overall success keeping the full-length slice: the failed slot as the
aborted call left it and zero for all later slots. -/
theorem fuzzSliceLoop_err_ge10 {F : GoValue → ByteSource → GRes GoValue}
    {zero v : GoValue} {n i : Nat} {s t}
    (hF : F zero s = .err v t) (hi : 10 ≤ i) :
    fuzzSliceLoop F zero (n + 1) i s = .ok (v :: List.replicate n zero) t := by
  unfold fuzzSliceLoop
  simp only [hF]
  rw [if_pos hi]

/-- Entering `fuzzStruct` at or beyond the depth ceiling returns success
immediately: no bytes are consumed and the target keeps its current
(zero) contents. -/
theorem fuzzStruct_depthCut {env cfg fuel depth sh v0 s}
    (h : cfg.maxDepth ≤ depth) :
    fuzzStruct env cfg (fuel + 1) depth sh v0 s = .ok v0 s := by
  unfold fuzzStruct
  rw [if_pos h]

/-- Unfolding of the slice branch once the nil gate has been passed and
the count seed has been drawn: the element count is exactly the seed
reduced modulo the element cap — nothing clamps it to the remaining
buffer — and a loop error leaves the target untouched. -/
theorem fuzzStruct_slice_unfold {env cfg fuel depth elem v0 s b s1 q s2}
    (hd : depth < cfg.maxDepth)
    (hb : ByteSource.GetByte s = .ok b s1)
    (hgate : ¬ (b % 10 < cfg.nilThreshold))
    (hq : ByteSource.GetUint32 s1 = .ok q s2) :
    fuzzStruct env cfg (fuel + 1) depth (.sslice elem) v0 s =
      sliceBranch env cfg fuel depth elem v0 (q % sliceCap elem) s2 := by
  unfold fuzzStruct sliceBranch
  rw [if_neg (Nat.not_le.mpr hd)]
  simp only [resolveShape, hb, hq]
  rw [if_neg hgate]

/-- Unfolding of the `reflect.Uint64` branch below the depth ceiling: a
single `GetInt` draw, stored widened. -/
theorem fuzzStruct_uint64_unfold {env cfg fuel depth v0 s}
    (hd : depth < cfg.maxDepth) :
    fuzzStruct env cfg (fuel + 1) depth .suint64 v0 s =
      (match ByteSource.GetInt s with
       | .ok n t => .ok (.vuint n) t
       | .err t => .err v0 t
       | .panic => .panic
       | .fuelOut => .fuelOut) := by
  unfold fuzzStruct
  rw [if_neg (Nat.not_le.mpr hd)]
  rfl

theorem fuzzFields_ne_fuelOut {F : Shape → GoValue → ByteSource → GRes GoValue}
    (hF : ∀ sh v st, F sh v st ≠ .fuelOut) :
    ∀ {l : List (Shape × GoValue)} {s}, fuzzFields F l s ≠ .fuelOut
  | [], s, h => by cases h
  | (sh, v) :: rest, s, h => by
    unfold fuzzFields at h
    cases hf : F sh v s with
    | ok v' s' =>
      simp only [hf] at h
      cases hl : fuzzFields F rest s' with
      | ok vs u => simp only [hl] at h; cases h
      | err vs u => simp only [hl] at h; cases h
      | panic => simp only [hl] at h; cases h
      | fuelOut => exact absurd hl (fuzzFields_ne_fuelOut hF)
    | err v' s' => simp only [hf] at h; cases h
    | panic => simp only [hf] at h; cases h
    | fuelOut => exact absurd hf (hF sh v s)

theorem fuzzSliceLoop_ne_fuelOut {F : GoValue → ByteSource → GRes GoValue}
    {zero : GoValue} (hF : ∀ v st, F v st ≠ .fuelOut) :
    ∀ {n i : Nat} {s}, fuzzSliceLoop F zero n i s ≠ .fuelOut
  | 0, i, s, h => by cases h
  | n + 1, i, s, h => by
    unfold fuzzSliceLoop at h
    cases hf : F zero s with
    | ok v t =>
      simp only [hf] at h
      cases hl : fuzzSliceLoop F zero n (i + 1) t with
      | ok vs u => simp only [hl] at h; cases h
      | err vs u => simp only [hl] at h; cases h
      | panic => simp only [hl] at h; cases h
      | fuelOut => exact absurd hl (fuzzSliceLoop_ne_fuelOut hF)
    | err v t =>
      simp only [hf] at h
      split at h <;> cases h
    | panic => simp only [hf] at h; cases h
    | fuelOut => exact absurd hf (hF zero s)

theorem fuzzMapLoop_ne_fuelOut {F : Shape → GoValue → ByteSource → GRes GoValue}
    {key value : Shape} (hF : ∀ sh v st, F sh v st ≠ .fuelOut) :
    ∀ {n : Nat} {entries s}, fuzzMapLoop F key value n entries s ≠ .fuelOut
  | 0, entries, s, h => by cases h
  | n + 1, entries, s, h => by
    unfold fuzzMapLoop at h
    cases hk : F key (zeroValue key) s with
    | ok k s' =>
      simp only [hk] at h
      cases hv : F value (zeroValue value) s' with
      | ok v s'' =>
        simp only [hv] at h
        exact absurd h (fuzzMapLoop_ne_fuelOut hF)
      | err v s'' => simp only [hv] at h; cases h
      | panic => simp only [hv] at h; cases h
      | fuelOut => exact absurd hv (hF value (zeroValue value) s')
    | err k s' => simp only [hk] at h; cases h
    | panic => simp only [hk] at h; cases h
    | fuelOut => exact absurd hk (hF key (zeroValue key) s)

/-- Fuel is an artifact of the embedding: any fuel exceeding
`maxDepth - depth` never runs out, because every recursive entry raises
`depth` by one and the entry at `depth >= maxDepth` is a leaf.  This is the
termination bound of the Go recursion: at most `maxDepth` nested entries
below any top-level call. -/
theorem fuzzStruct_ne_fuelOut (env : TypeEnv) (cfg : Config) :
    ∀ {fuel depth : Nat} (sh : Shape) (v0 : GoValue) (s : ByteSource),
      cfg.maxDepth - depth < fuel →
      fuzzStruct env cfg fuel depth sh v0 s ≠ .fuelOut
  | 0, depth, sh, v0, s, hfuel, _ => by omega
  | fuel + 1, depth, sh, v0, s, hfuel, h => by
    by_cases hd : cfg.maxDepth ≤ depth
    · rw [fuzzStruct_depthCut hd] at h
      cases h
    · have hrec : cfg.maxDepth - (depth + 1) < fuel := by omega
      have hF : ∀ sh' v' s',
          fuzzStruct env cfg fuel (depth + 1) sh' v' s' ≠ .fuelOut :=
        fun sh' v' s' => fuzzStruct_ne_fuelOut env cfg sh' v' s' hrec
      unfold fuzzStruct at h
      rw [if_neg hd] at h
      generalize hsh : resolveShape env sh = rsh at h
      cases rsh with
      | sstruct fields =>
        cases hl : fuzzFields (fuzzStruct env cfg fuel (depth + 1))
            (fields.zip (structFields fields v0)) s with
        | ok vs u => simp only [hl] at h; cases h
        | err vs u => simp only [hl] at h; cases h
        | panic => simp only [hl] at h; cases h
        | fuelOut => exact absurd hl (fuzzFields_ne_fuelOut hF)
      | sstring =>
        cases hg : ByteSource.GetString s with
        | ok str u => simp only [hg] at h; cases h
        | err u => simp only [hg] at h; cases h
        | panic => simp only [hg] at h; cases h
        | fuelOut =>
          rw [ByteSource.getString_eq_getBytes] at hg
          exact absurd hg ByteSource.getBytes_ne_fuelOut
      | sslice elem =>
        cases hb : ByteSource.GetByte s with
        | ok b s1 =>
          simp only [hb] at h
          split at h
          · cases h
          · cases hq : ByteSource.GetUint32 s1 with
            | ok q s2 =>
              simp only [hq] at h
              cases hl : fuzzSliceLoop (fuzzStruct env cfg fuel (depth + 1) elem)
                  (zeroValue elem) (q % sliceCap elem) 0 s2 with
              | ok vs u => simp only [hl] at h; cases h
              | err vs u => simp only [hl] at h; cases h
              | panic => simp only [hl] at h; cases h
              | fuelOut =>
                exact absurd hl (fuzzSliceLoop_ne_fuelOut (fun v' s' => hF elem v' s'))
            | err s2 => simp only [hq] at h; cases h
            | panic => simp only [hq] at h; cases h
            | fuelOut => exact absurd hq ByteSource.getUint32_ne_fuelOut
        | err s1 => simp only [hb] at h; cases h
        | panic => simp only [hb] at h; cases h
        | fuelOut => exact absurd hb ByteSource.getByte_ne_fuelOut
      | suint16 =>
        cases hg : ByteSource.GetUint16 s with
        | ok n u => simp only [hg] at h; cases h
        | err u => simp only [hg] at h; cases h
        | panic => simp only [hg] at h; cases h
        | fuelOut =>
          unfold ByteSource.GetUint16 at hg
          exact absurd hg ByteSource.nbBool_ne_fuelOut
      | suint32 =>
        cases hg : ByteSource.GetUint32 s with
        | ok n u => simp only [hg] at h; cases h
        | err u => simp only [hg] at h; cases h
        | panic => simp only [hg] at h; cases h
        | fuelOut => exact absurd hg ByteSource.getUint32_ne_fuelOut
      | suint64 =>
        cases hg : ByteSource.GetInt s with
        | ok n u => simp only [hg] at h; cases h
        | err u => simp only [hg] at h; cases h
        | panic => simp only [hg] at h; cases h
        | fuelOut =>
          rw [ByteSource.getInt_eq_getByte] at hg
          exact absurd hg ByteSource.getByte_ne_fuelOut
      | sintLike =>
        cases hg : ByteSource.GetInt s with
        | ok n u => simp only [hg] at h; cases h
        | err u => simp only [hg] at h; cases h
        | panic => simp only [hg] at h; cases h
        | fuelOut =>
          rw [ByteSource.getInt_eq_getByte] at hg
          exact absurd hg ByteSource.getByte_ne_fuelOut
      | sfloat32 =>
        cases hg : ByteSource.GetFloat32 s with
        | ok n u => simp only [hg] at h; cases h
        | err u => simp only [hg] at h; cases h
        | panic => simp only [hg] at h; cases h
        | fuelOut =>
          unfold ByteSource.GetFloat32 at hg
          exact absurd hg ByteSource.nbBool_ne_fuelOut
      | sfloat64 =>
        cases hg : ByteSource.GetFloat64 s with
        | ok n u => simp only [hg] at h; cases h
        | err u => simp only [hg] at h; cases h
        | panic => simp only [hg] at h; cases h
        | fuelOut =>
          unfold ByteSource.GetFloat64 at hg
          exact absurd hg ByteSource.nbBool_ne_fuelOut
      | sbool =>
        cases hg : ByteSource.GetBool s with
        | ok b u => simp only [hg] at h; cases h
        | err u => simp only [hg] at h; cases h
        | panic => simp only [hg] at h; cases h
        | fuelOut => exact absurd hg ByteSource.getBool_ne_fuelOut
      | smap key value =>
        cases hb : ByteSource.GetByte s with
        | ok b s1 =>
          simp only [hb] at h
          split at h
          · cases h
          · cases hq : ByteSource.GetInt s1 with
            | ok q s2 =>
              simp only [hq] at h
              cases hl : fuzzMapLoop (fuzzStruct env cfg fuel (depth + 1))
                  key value (q % 50) [] s2 with
              | ok es u => simp only [hl] at h; cases h
              | err es u => simp only [hl] at h; cases h
              | panic => simp only [hl] at h; cases h
              | fuelOut => exact absurd hl (fuzzMapLoop_ne_fuelOut hF)
            | err s2 => simp only [hq] at h; cases h
            | panic => simp only [hq] at h; cases h
            | fuelOut =>
              rw [ByteSource.getInt_eq_getByte] at hq
              exact absurd hq ByteSource.getByte_ne_fuelOut
        | err s1 => simp only [hb] at h; cases h
        | panic => simp only [hb] at h; cases h
        | fuelOut => exact absurd hb ByteSource.getByte_ne_fuelOut
      | sptr elem =>
        cases hb : ByteSource.GetByte s with
        | ok b s1 =>
          simp only [hb] at h
          split at h
          · cases h
          · cases hp : fuzzStruct env cfg fuel (depth + 1) elem (zeroValue elem) s1 with
            | ok pv u => simp only [hp] at h; cases h
            | err pv u => simp only [hp] at h; cases h
            | panic => simp only [hp] at h; cases h
            | fuelOut => exact absurd hp (hF elem (zeroValue elem) s1)
        | err s1 => simp only [hb] at h; cases h
        | panic => simp only [hb] at h; cases h
        | fuelOut => exact absurd hb ByteSource.getByte_ne_fuelOut
      | suint8 =>
        cases hb : ByteSource.GetByte s with
        | ok b u => simp only [hb] at h; cases h
        | err u => simp only [hb] at h; cases h
        | panic => simp only [hb] at h; cases h
        | fuelOut => exact absurd hb ByteSource.getByte_ne_fuelOut
      | sref i => simp at h
      | sother =>
        dsimp only at h
        split at h <;> cases h

/-!
Claim theorems.
-/

/-- C3: the claim that no public `ByteSource` operation ever panics is
right as a specification but the code violates it: `GetBool` with exactly
one byte remaining increments the cursor and then indexes one past the end
of the buffer, and `GetStringFrom` with a non-zero length and an empty
`possibleChars` alphabet takes a modulo by zero.  Both are Go runtime
panics, not `InsufficientBytes` errors. -/
theorem c3_totality_failing_inputs :
    ByteSource.GetBool (ByteSource.New [4] 10) = .panic ∧
    ByteSource.GetStringFrom [] 1 (ByteSource.New [0] 10) = .panic := by
  exact ⟨by decide, by decide⟩

/-- C4: the claim that `GetBool` consumes the byte at position `p` and
returns its evenness is the evident intent, but the code increments the
position before the parity test, so it tests the byte at `p + 1`: over
`[0x01, 0x02]` it returns `true` although the consumed byte `0x01` is odd,
and over `[0x02]` (one even byte remaining, claimed result `true`) it
panics with an out-of-range index. -/
theorem c4_bool_parity_failing_inputs :
    ByteSource.GetBool (ByteSource.New [1, 2] 10) =
      .ok true { ByteSource.New [1, 2] 10 with position := 1 } ∧
    (1 : Nat) % 2 = 1 ∧
    ByteSource.GetBool (ByteSource.New [2] 10) = .panic := by
  exact ⟨by decide, by decide, by decide⟩

/-- C7: entering `fuzzStruct` at `depth ≥ maxDepth` returns success
immediately, consumes no bytes and leaves the subtree at its current
contents (the zero value, since every entry of the traversal hands the
subtree its freshly allocated zero contents); and any fuel exceeding
`maxDepth - depth` never runs out, so generation over any shape — including
self-referential ones described through a cyclic `TypeEnv` — terminates
within `maxDepth` nested recursive entries regardless of the buffer. -/
theorem c7_depth_cutoff_and_termination :
    (∀ (env : TypeEnv) (cfg : Config) (fuel depth : Nat) (sh : Shape)
        (v0 : GoValue) (s : ByteSource), cfg.maxDepth ≤ depth →
      fuzzStruct env cfg (fuel + 1) depth sh v0 s = .ok v0 s) ∧
    (∀ (env : TypeEnv) (cfg : Config) (fuel depth : Nat) (sh : Shape)
        (v0 : GoValue) (s : ByteSource), cfg.maxDepth - depth < fuel →
      fuzzStruct env cfg fuel depth sh v0 s ≠ .fuelOut) :=
  ⟨fun _ _ _ _ _ _ _ h => fuzzStruct_depthCut h,
   fun env cfg _ _ sh v0 s h => fuzzStruct_ne_fuelOut env cfg sh v0 s h⟩

/-- Witness for C7 on a self-referential shape: the type table
`[.sstruct [.sptr (.sref 0)]]` describes `type T struct { next *T }`. -/
theorem c7_witness :
    fuzzStruct [.sstruct [.sptr (.sref 0)]] defaultConfig (3 + 1) 100 .sbool
      (.vbool false) (ByteSource.New [1, 2] 10) =
      .ok (.vbool false) (ByteSource.New [1, 2] 10) ∧
    fuzzStruct [.sstruct [.sptr (.sref 0)]] defaultConfig 101 0 (.sref 0)
      (.vstruct [.vptr none]) (ByteSource.New [1, 2] 10) ≠ .fuelOut :=
  ⟨c7_depth_cutoff_and_termination.1 [.sstruct [.sptr (.sref 0)]] defaultConfig
      3 100 .sbool (.vbool false) (ByteSource.New [1, 2] 10) (by decide),
   c7_depth_cutoff_and_termination.2 [.sstruct [.sptr (.sref 0)]] defaultConfig
      101 0 (.sref 0) (.vstruct [.vptr none]) (ByteSource.New [1, 2] 10) (by decide)⟩

/-- C9: `GetUint32` is `GetInt` (one byte, value below 256, widened), not
a 4-byte read; and populating a `reflect.Uint64` target draws through the
1-byte `GetInt`, consuming exactly one byte. -/
theorem c9_uint32_is_one_byte :
    (∀ (s : ByteSource) (v : Nat) (s' : ByteSource), ByteSource.WF s →
      ByteSource.GetUint32 s = .ok v s' →
      s' = { s with position := s.position + 1 } ∧
        s.data.get? s.position = some v ∧ v < 256) ∧
    (∀ s : ByteSource, ByteSource.GetUint32 s = ByteSource.GetInt s) ∧
    (∀ (env : TypeEnv) (cfg : Config) (fuel depth : Nat) (v0 : GoValue)
        (s : ByteSource) (n : Nat) (t : ByteSource), depth < cfg.maxDepth →
      ByteSource.GetInt s = .ok n t →
      fuzzStruct env cfg (fuel + 1) depth .suint64 v0 s = .ok (.vuint n) t ∧
        t.position = s.position + 1 ∧ (ByteSource.WF s → n < 256)) := by
  refine ⟨fun s v s' hwf h => ?_, ByteSource.getUint32_eq_getInt,
    fun env cfg fuel depth v0 s n t hd hi => ?_⟩
  · obtain ⟨hs', hg, -⟩ := ByteSource.getUint32_ok_inv h
    refine ⟨hs', hg, ?_⟩
    exact ByteSource.getInt_ok_lt256 hwf.2.2.1
      ((ByteSource.getUint32_eq_getInt s) ▸ h)
  · obtain ⟨ht, -, -⟩ := ByteSource.getByte_ok_inv
      ((ByteSource.getInt_eq_getByte s) ▸ hi)
    rw [fuzzStruct_uint64_unfold hd, hi]
    exact ⟨rfl, by rw [ht], fun hwf => ByteSource.getInt_ok_lt256 hwf.2.2.1 hi⟩

/-- Witness for C9 at a concrete one-byte draw of the value 200. -/
theorem c9_witness :
    ByteSource.GetUint32 (ByteSource.New [200, 1] 10) =
      ByteSource.GetInt (ByteSource.New [200, 1] 10) ∧
    (fuzzStruct [] defaultConfig (0 + 1) 0 .suint64 (.vuint 0)
        (ByteSource.New [200, 1] 10) =
        .ok (.vuint 200) { ByteSource.New [200, 1] 10 with position := 1 } ∧
      ({ ByteSource.New [200, 1] 10 with position := 1 } : ByteSource).position =
        (ByteSource.New [200, 1] 10).position + 1 ∧
      (ByteSource.WF (ByteSource.New [200, 1] 10) → 200 < 256)) :=
  ⟨c9_uint32_is_one_byte.2.1 (ByteSource.New [200, 1] 10),
   c9_uint32_is_one_byte.2.2 [] defaultConfig 0 0 (.vuint 0)
     (ByteSource.New [200, 1] 10) 200
     { ByteSource.New [200, 1] 10 with position := 1 } (by decide) rfl⟩

/-- C10: for a `[]uint8` slice target past the nil gate, the count seed is
a single byte (below 256), the 10,000,000 byte-slice cap never binds
(`q % 10000000 = q`), and every successful generation yields at most 255
elements. -/
theorem c10_byte_slice_count_le_255 (env : TypeEnv) (cfg : Config)
    (fuel depth : Nat) (v0 : GoValue) (s s1 s2 : ByteSource) (b q : Nat)
    (v : GoValue) (s' : ByteSource)
    (hwf : ByteSource.WF s) (hd : depth < cfg.maxDepth)
    (hb : ByteSource.GetByte s = .ok b s1)
    (hgate : ¬ (b % 10 < cfg.nilThreshold))
    (hq : ByteSource.GetUint32 s1 = .ok q s2)
    (hok : fuzzStruct env cfg (fuel + 1) depth (.sslice .suint8) v0 s = .ok v s') :
    q < 256 ∧ q % sliceCap .suint8 = q ∧
      ∃ vs, v = .vslice vs ∧ vs.length = q ∧ vs.length ≤ 255 := by
  obtain ⟨hs1, -, -⟩ := ByteSource.getByte_ok_inv hb
  obtain ⟨hs2, hg, -⟩ := ByteSource.getUint32_ok_inv hq
  have hq256 : q < 256 := by
    apply hwf.2.2.1 q
    apply List.get?_mem (n := s1.position)
    rw [← hg, hs1]
  have hcap : q % sliceCap Shape.suint8 = q :=
    Nat.mod_eq_of_lt (lt_trans hq256 (by norm_num [sliceCap, isByteSliceElem]))
  refine ⟨hq256, hcap, ?_⟩
  rw [fuzzStruct_slice_unfold hd hb hgate hq] at hok
  unfold sliceBranch at hok
  cases hl : fuzzSliceLoop (fuzzStruct env cfg fuel (depth + 1) .suint8)
      (zeroValue .suint8) (q % sliceCap .suint8) 0 s2 with
  | ok vs u =>
    simp only [hl] at hok
    cases hok
    have hlen := fuzzSliceLoop_ok_length hl
    rw [hcap] at hlen
    exact ⟨vs, rfl, hlen, by omega⟩
  | err vs u => simp only [hl] at hok; cases hok
  | panic => simp only [hl] at hok; cases hok
  | fuelOut => simp only [hl] at hok; cases hok

/-- Witness for C10: seed byte 3 over `[9, 3, 7, 8, 9]` allocates 3
elements. -/
theorem c10_witness :
    (3 : Nat) < 256 ∧ 3 % sliceCap .suint8 = 3 ∧
      ∃ vs, (GoValue.vslice [.vuint 7, .vuint 8, .vuint 9] : GoValue) =
          .vslice vs ∧ vs.length = 3 ∧ vs.length ≤ 255 :=
  c10_byte_slice_count_le_255 [] defaultConfig 1 0 (.vslice [])
    (ByteSource.New [9, 3, 7, 8, 9] 2000000)
    { ByteSource.New [9, 3, 7, 8, 9] 2000000 with position := 1 }
    { ByteSource.New [9, 3, 7, 8, 9] 2000000 with position := 2 } 9 3
    (.vslice [.vuint 7, .vuint 8, .vuint 9])
    { ByteSource.New [9, 3, 7, 8, 9] 2000000 with position := 5 }
    (by decide) (by decide) rfl (by decide) rfl rfl

/-- C1 counterexample: over `[0x03, 'A', 'B', 'C']` the length-framed read
returns the window starting at the length byte itself — payload
`[0x03, 'A', 'B']`, final position 3 — not the claimed `"ABC"` with
position 4. -/
theorem c1_counterexample :
    ByteSource.GetBytes (ByteSource.New [3, 65, 66, 67] 2000000) =
      .ok [3, 65, 66]
        { ByteSource.New [3, 65, 66, 67] 2000000 with position := 3 } ∧
    ([3, 65, 66] : List Nat) ≠ [65, 66, 67] ∧ (3 : Nat) ≠ 4 := by
  exact ⟨by decide, by decide, by decide⟩

/-- C1 (amended): `GetBytes` over `[0x03,'A','B','C']` yields the 3-byte
window that starts at the length byte (`[0x03,'A','B']`) and parks the
cursor at 3; and whenever the decoded non-zero length prefix cannot be
served from the buffer, it fails with the cursor advanced by exactly the
one consumed length byte — never rolled back to the original position. -/
theorem c1_amended :
    (ByteSource.GetBytes (ByteSource.New [3, 65, 66, 67] 2000000) =
      .ok [3, 65, 66]
        { ByteSource.New [3, 65, 66, 67] 2000000 with position := 3 }) ∧
    (∀ (s s1 : ByteSource) (L : Nat), ByteSource.GetUint32 s = .ok L s1 →
      L ≠ 0 → s.dataTotal ≤ s.position + L →
      ByteSource.GetBytes s = .err s1 ∧ s1.position = s.position + 1) := by
  refine ⟨by decide, fun s s1 L h1 hL hbig =>
    ⟨ByteSource.getBytes_len_too_big h1 hL hbig, ?_⟩⟩
  obtain ⟨hs1, -, -⟩ := ByteSource.getUint32_ok_inv h1
  rw [hs1]

/-- Witness for C1's amended error half: length prefix 5 with one byte of
payload available fails with the cursor at 1, not 0. -/
theorem c1_witness :
    ByteSource.GetBytes (ByteSource.New [5, 65] 10) =
      .err { ByteSource.New [5, 65] 10 with position := 1 } ∧
    ({ ByteSource.New [5, 65] 10 with position := 1 } : ByteSource).position =
      (ByteSource.New [5, 65] 10).position + 1 :=
  c1_amended.2 (ByteSource.New [5, 65] 10)
    { ByteSource.New [5, 65] 10 with position := 1 } 5 rfl (by decide) (by decide)

/-- C5 counterexample: a seed count of 12 with only 10 element bytes
available fails at running index 10 (the 11th element); the result is
success with a slice of the full allocated length 12 — the populated
prefix plus two zero slots — not the claimed truncation to length 10. -/
theorem c5_counterexample :
    fuzzStruct [] defaultConfig 2 0 (.sslice .suint8) (.vslice [])
      (ByteSource.New [9, 12, 1, 2, 3, 4, 5, 6, 7, 8, 9, 10] 2000000) =
    .ok (.vslice [.vuint 1, .vuint 2, .vuint 3, .vuint 4, .vuint 5, .vuint 6,
        .vuint 7, .vuint 8, .vuint 9, .vuint 10, .vuint 0, .vuint 0])
      { ByteSource.New [9, 12, 1, 2, 3, 4, 5, 6, 7, 8, 9, 10] 2000000 with
        position := 12 } ∧
    ([GoValue.vuint 1, .vuint 2, .vuint 3, .vuint 4, .vuint 5, .vuint 6,
        .vuint 7, .vuint 8, .vuint 9, .vuint 10, .vuint 0, .vuint 0] :
      List GoValue).length ≠ 10 := by
  exact ⟨rfl, by decide⟩

/-- C5 (amended): a failed element at running index `i ≥ 10` yields
success keeping the FULL allocated element count — the generated prefix,
the failed slot as the aborted call left it, and zeros after — never a
truncation (every successful slice loop returns exactly the allocated
count); a failure at `i < 10` propagates as an error and the slice target
keeps its prior (unset) value. -/
theorem c5_amended :
    (∀ (F : GoValue → ByteSource → GRes GoValue) (zero : GoValue)
        (n i : Nat) (s : ByteSource) (vs : List GoValue) (s' : ByteSource),
      fuzzSliceLoop F zero n i s = .ok vs s' → vs.length = n) ∧
    (∀ (F : GoValue → ByteSource → GRes GoValue) (zero v : GoValue)
        (n i : Nat) (s t : ByteSource), F zero s = .err v t → 10 ≤ i →
      fuzzSliceLoop F zero (n + 1) i s = .ok (v :: List.replicate n zero) t) ∧
    (∀ (F : GoValue → ByteSource → GRes GoValue) (zero v : GoValue)
        (n i : Nat) (s t : ByteSource), F zero s = .err v t → i < 10 →
      fuzzSliceLoop F zero (n + 1) i s = .err (v :: List.replicate n zero) t) ∧
    (∀ (env : TypeEnv) (cfg : Config) (fuel depth : Nat) (elem : Shape)
        (v0 : GoValue) (s s1 s2 : ByteSource) (b q : Nat)
        (vs : List GoValue) (s' : ByteSource), depth < cfg.maxDepth →
      ByteSource.GetByte s = .ok b s1 → ¬ (b % 10 < cfg.nilThreshold) →
      ByteSource.GetUint32 s1 = .ok q s2 →
      fuzzSliceLoop (fuzzStruct env cfg fuel (depth + 1) elem)
        (zeroValue elem) (q % sliceCap elem) 0 s2 = .err vs s' →
      fuzzStruct env cfg (fuel + 1) depth (.sslice elem) v0 s = .err v0 s') := by
  refine ⟨fun F zero n i s vs s' h => fuzzSliceLoop_ok_length h,
    fun F zero v n i s t hF hi => fuzzSliceLoop_err_ge10 hF hi,
    fun F zero v n i s t hF hi => fuzzSliceLoop_err_lt10 hF hi,
    fun env cfg fuel depth elem v0 s s1 s2 b q vs s' hd hb hgate hq hloop => ?_⟩
  rw [fuzzStruct_slice_unfold hd hb hgate hq]
  unfold sliceBranch
  rw [hloop]

/-- Witness for C5's amended loop policy at concrete inputs: an
always-failing element generator at running index 11 over 3 remaining
slots succeeds with the 3 zero-kept slots, and at index 4 it errors. -/
theorem c5_witness :
    fuzzSliceLoop (fun _ st => .err (.vuint 7) st) (.vuint 0) (2 + 1) 11
        (ByteSource.New [] 9) =
      .ok (.vuint 7 :: List.replicate 2 (.vuint 0)) (ByteSource.New [] 9) ∧
    fuzzSliceLoop (fun _ st => .err (.vuint 7) st) (.vuint 0) (2 + 1) 4
        (ByteSource.New [] 9) =
      .err (.vuint 7 :: List.replicate 2 (.vuint 0)) (ByteSource.New [] 9) :=
  ⟨c5_amended.2.1 (fun _ st => .err (.vuint 7) st) (.vuint 0) (.vuint 7) 2 11
      (ByteSource.New [] 9) (ByteSource.New [] 9) rfl (by decide),
   c5_amended.2.2.1 (fun _ st => .err (.vuint 7) st) (.vuint 0) (.vuint 7) 2 4
      (ByteSource.New [] 9) (ByteSource.New [] 9) rfl (by decide)⟩

/-- C6 counterexample: over the 12-byte buffer `[9, 50, 1..10]` the slice
branch allocates `50 % 10000000 = 50` elements — far more than the 10
bytes remaining after the seed — and even returns them successfully
(elements 10..49 zero via the `i ≥ 10` policy), so no remaining-budget
clamp exists. -/
theorem c6_counterexample :
    fuzzStruct [] defaultConfig 2 0 (.sslice .suint8) (.vslice [])
      (ByteSource.New [9, 50, 1, 2, 3, 4, 5, 6, 7, 8, 9, 10] 2000000) =
    .ok (.vslice ([.vuint 1, .vuint 2, .vuint 3, .vuint 4, .vuint 5, .vuint 6,
        .vuint 7, .vuint 8, .vuint 9, .vuint 10] ++ List.replicate 40 (.vuint 0)))
      { ByteSource.New [9, 50, 1, 2, 3, 4, 5, 6, 7, 8, 9, 10] 2000000 with
        position := 12 } ∧
    (([GoValue.vuint 1, .vuint 2, .vuint 3, .vuint 4, .vuint 5, .vuint 6,
        .vuint 7, .vuint 8, .vuint 9, .vuint 10] ++
       List.replicate 40 (GoValue.vuint 0)).length = 50) ∧
    (ByteSource.New [9, 50, 1, 2, 3, 4, 5, 6, 7, 8, 9, 10] 2000000).dataTotal
      < 50 := by
  exact ⟨rfl, by decide, by decide⟩

/-- C6 (amended): the element count is exactly the one-byte count seed
reduced modulo the element cap — 10,000,000 for `[]uint8`, 50 for every
other element type — with no further clamp to the remaining buffer. -/
theorem c6_amended :
    sliceCap .suint8 = 10000000 ∧
    (∀ elem : Shape, isByteSliceElem elem = false → sliceCap elem = 50) ∧
    (∀ (env : TypeEnv) (cfg : Config) (fuel depth : Nat) (elem : Shape)
        (v0 : GoValue) (s s1 s2 : ByteSource) (b q : Nat),
      depth < cfg.maxDepth → ByteSource.GetByte s = .ok b s1 →
      ¬ (b % 10 < cfg.nilThreshold) → ByteSource.GetUint32 s1 = .ok q s2 →
      fuzzStruct env cfg (fuel + 1) depth (.sslice elem) v0 s =
        sliceBranch env cfg fuel depth elem v0 (q % sliceCap elem) s2) :=
  ⟨rfl, fun elem h => by simp [sliceCap, h],
   fun env cfg fuel depth elem v0 s s1 s2 b q hd hb hgate hq =>
     fuzzStruct_slice_unfold hd hb hgate hq⟩

/-- Witness for C6: seed byte 0 over `[9, 0]` reduces the slice branch to
the zero-count loop. -/
theorem c6_witness :
    fuzzStruct [] defaultConfig (1 + 1) 0 (.sslice .suint8) (.vslice [])
      (ByteSource.New [9, 0] 10) =
      sliceBranch [] defaultConfig 1 0 .suint8 (.vslice [])
        (0 % sliceCap .suint8) { ByteSource.New [9, 0] 10 with position := 2 } :=
  c6_amended.2.2 [] defaultConfig 1 0 .suint8 (.vslice [])
    (ByteSource.New [9, 0] 10) { ByteSource.New [9, 0] 10 with position := 1 }
    { ByteSource.New [9, 0] 10 with position := 2 } 9 0
    (by decide) rfl (by decide) rfl

/-- C2 counterexample: `GetNBytes 2` over the one-byte buffer `[7]`
returns an error with the cursor advanced to 1 — a partial read — where
the claim requires the error to leave the state untouched. -/
theorem c2_counterexample :
    ByteSource.GetNBytes 2 (ByteSource.New [7] 10) =
      .err { ByteSource.New [7] 10 with position := 1 } ∧
    ({ ByteSource.New [7] 10 with position := 1 } : ByteSource) ≠
      ByteSource.New [7] 10 := by
  exact ⟨by decide, by decide⟩

/-- C2 (amended): every successful read advances the cursor by exactly its
read size over an unchanged buffer; the guarded single-pass reads
(`GetByte`, `GetInt`, `GetBool` when it returns, `GetUint32`,
`GetStringFrom`) leave the state untouched on error; but the composite
reads may fail after consuming a prefix — the `GetNBytes`-backed family
parks the cursor at the end of the buffer, and `GetBytes`/`GetString`
leave it one past the consumed length byte. -/
theorem c2_amended (s : ByteSource) (hwf : ByteSource.WF s) :
    (∀ (b : Nat) (s' : ByteSource), ByteSource.GetByte s = .ok b s' →
      ByteSource.SameBuf s s' ∧ s'.position = s.position + 1) ∧
    (∀ s' : ByteSource, ByteSource.GetByte s = .err s' → s' = s) ∧
    (∀ (v : Nat) (s' : ByteSource), ByteSource.GetInt s = .ok v s' →
      ByteSource.SameBuf s s' ∧ s'.position = s.position + 1) ∧
    (∀ s' : ByteSource, ByteSource.GetInt s = .err s' → s' = s) ∧
    (∀ (b : Bool) (s' : ByteSource), ByteSource.GetBool s = .ok b s' →
      ByteSource.SameBuf s s' ∧ s'.position = s.position + 1) ∧
    (∀ s' : ByteSource, ByteSource.GetBool s = .err s' → s' = s) ∧
    (∀ (v : Nat) (s' : ByteSource), ByteSource.GetUint32 s = .ok v s' →
      ByteSource.SameBuf s s' ∧ s'.position = s.position + 1) ∧
    (∀ s' : ByteSource, ByteSource.GetUint32 s = .err s' → s' = s) ∧
    (∀ (n : Nat) (bs : List Nat) (s' : ByteSource),
      ByteSource.GetNBytes n s = .ok bs s' →
      ByteSource.SameBuf s s' ∧ s'.position = s.position + n ∧ bs.length = n) ∧
    (∀ (n : Nat) (s' : ByteSource), ByteSource.GetNBytes n s = .err s' →
      ByteSource.SameBuf s s' ∧ (s' = s ∨ s'.position = s.dataTotal)) ∧
    (∀ (v : Nat) (s' : ByteSource), ByteSource.GetUint16 s = .ok v s' →
      ByteSource.SameBuf s s' ∧ s'.position = s.position + 3) ∧
    (∀ s' : ByteSource, ByteSource.GetUint16 s = .err s' →
      ByteSource.SameBuf s s' ∧ (s' = s ∨ s'.position = s.dataTotal)) ∧
    (∀ (v : Nat) (s' : ByteSource), ByteSource.GetUint64 s = .ok v s' →
      ByteSource.SameBuf s s' ∧ s'.position = s.position + 9) ∧
    (∀ s' : ByteSource, ByteSource.GetUint64 s = .err s' →
      ByteSource.SameBuf s s' ∧ (s' = s ∨ s'.position = s.dataTotal)) ∧
    (∀ (v : Nat) (s' : ByteSource), ByteSource.GetFloat32 s = .ok v s' →
      ByteSource.SameBuf s s' ∧ s'.position = s.position + 5) ∧
    (∀ s' : ByteSource, ByteSource.GetFloat32 s = .err s' →
      ByteSource.SameBuf s s' ∧ (s' = s ∨ s'.position = s.dataTotal)) ∧
    (∀ (v : Nat) (s' : ByteSource), ByteSource.GetFloat64 s = .ok v s' →
      ByteSource.SameBuf s s' ∧ s'.position = s.position + 9) ∧
    (∀ s' : ByteSource, ByteSource.GetFloat64 s = .err s' →
      ByteSource.SameBuf s s' ∧ (s' = s ∨ s'.position = s.dataTotal)) ∧
    (∀ (bs : List Nat) (s' : ByteSource), ByteSource.GetBytes s = .ok bs s' →
      ByteSource.SameBuf s s' ∧ ∃ L, s.data.get? s.position = some L ∧
        s'.position = s.position + max L 1) ∧
    (∀ s' : ByteSource, ByteSource.GetBytes s = .err s' →
      ByteSource.SameBuf s s' ∧ (s' = s ∨ s'.position = s.position + 1)) ∧
    (∀ (bs : List Nat) (s' : ByteSource), ByteSource.GetString s = .ok bs s' →
      ByteSource.SameBuf s s' ∧ ∃ L, s.data.get? s.position = some L ∧
        s'.position = s.position + max L 1) ∧
    (∀ s' : ByteSource, ByteSource.GetString s = .err s' →
      ByteSource.SameBuf s s' ∧ (s' = s ∨ s'.position = s.position + 1)) ∧
    (∀ (chars : List Nat) (len : Nat) (cs : List Nat) (s' : ByteSource),
      ByteSource.GetStringFrom chars len s = .ok cs s' →
      ByteSource.SameBuf s s' ∧ s'.position = s.position + len ∧
        cs.length = len) ∧
    (∀ (chars : List Nat) (len : Nat) (s' : ByteSource),
      ByteSource.GetStringFrom chars len s = .err s' → s' = s) := by
  have hle : s.position ≤ s.dataTotal := hwf.2.1
  have hbyteOk : ∀ (b : Nat) (s' : ByteSource), ByteSource.GetByte s = .ok b s' →
      ByteSource.SameBuf s s' ∧ s'.position = s.position + 1 := by
    intro b s' h
    obtain ⟨hs', -, -⟩ := ByteSource.getByte_ok_inv h
    exact ⟨by rw [hs']; exact ⟨rfl, rfl, rfl⟩, by rw [hs']⟩
  have hbytesOk : ∀ (bs : List Nat) (s' : ByteSource),
      ByteSource.GetBytes s = .ok bs s' →
      ByteSource.SameBuf s s' ∧ ∃ L, s.data.get? s.position = some L ∧
        s'.position = s.position + max L 1 := by
    intro bs s' h
    obtain ⟨hsb, -, L, hg, hcase⟩ := ByteSource.getBytes_ok_inv h
    refine ⟨hsb, L, hg, ?_⟩
    rcases hcase with ⟨h0, -, hpos⟩ | ⟨hne, hpos, -, -, -⟩ <;> omega
  have hbytesErr : ∀ s' : ByteSource, ByteSource.GetBytes s = .err s' →
      ByteSource.SameBuf s s' ∧ (s' = s ∨ s'.position = s.position + 1) := by
    intro s' h
    obtain ⟨hsb, -, -, hor⟩ := ByteSource.getBytes_err_inv hle h
    exact ⟨hsb, hor⟩
  refine ⟨hbyteOk, fun s' h => (ByteSource.getByte_err_inv h).1,
    fun v s' h => hbyteOk v s' ((ByteSource.getInt_eq_getByte s) ▸ h),
    fun s' h => (ByteSource.getByte_err_inv
      ((ByteSource.getInt_eq_getByte s) ▸ h)).1,
    ?_, fun s' h => (ByteSource.getBool_err_inv h).1,
    fun v s' h => hbyteOk v s'
      ((ByteSource.getInt_eq_getByte s) ▸ (ByteSource.getUint32_eq_getInt s) ▸ h),
    fun s' h => (ByteSource.getByte_err_inv ((ByteSource.getInt_eq_getByte s) ▸
      (ByteSource.getUint32_eq_getInt s) ▸ h)).1,
    ?_, ?_, ?_, ?_, ?_, ?_, ?_, ?_, ?_, ?_,
    hbytesOk, hbytesErr,
    fun bs s' h => hbytesOk bs s' ((ByteSource.getString_eq_getBytes s) ▸ h),
    fun s' h => hbytesErr s' ((ByteSource.getString_eq_getBytes s) ▸ h),
    ?_, fun chars len s' h => (ByteSource.getStringFrom_err_inv h).1⟩
  · intro b s' h
    obtain ⟨hs', -, -⟩ := ByteSource.getBool_ok_inv h
    exact ⟨by rw [hs']; exact ⟨rfl, rfl, rfl⟩, by rw [hs']⟩
  · intro n bs s' h
    obtain ⟨hsb, hpos, hlen, -, -⟩ := ByteSource.getNBytes_ok_inv h
    exact ⟨hsb, hpos, hlen⟩
  · intro n s' h
    obtain ⟨hsb, -, -, hor⟩ := ByteSource.getNBytes_err_inv hle h
    exact ⟨hsb, hor⟩
  · intro v s' h
    unfold ByteSource.GetUint16 at h
    obtain ⟨hsb, hpos, -⟩ := ByteSource.nbBool_ok_inv h
    exact ⟨hsb, by omega⟩
  · intro s' h
    unfold ByteSource.GetUint16 at h
    obtain ⟨hsb, -, -, hor⟩ := ByteSource.nbBool_err_inv hle h
    exact ⟨hsb, hor⟩
  · intro v s' h
    unfold ByteSource.GetUint64 at h
    obtain ⟨hsb, hpos, -⟩ := ByteSource.nbBool_ok_inv h
    exact ⟨hsb, by omega⟩
  · intro s' h
    unfold ByteSource.GetUint64 at h
    obtain ⟨hsb, -, -, hor⟩ := ByteSource.nbBool_err_inv hle h
    exact ⟨hsb, hor⟩
  · intro v s' h
    unfold ByteSource.GetFloat32 at h
    obtain ⟨hsb, hpos, -⟩ := ByteSource.nbBool_ok_inv h
    exact ⟨hsb, by omega⟩
  · intro s' h
    unfold ByteSource.GetFloat32 at h
    obtain ⟨hsb, -, -, hor⟩ := ByteSource.nbBool_err_inv hle h
    exact ⟨hsb, hor⟩
  · intro v s' h
    unfold ByteSource.GetFloat64 at h
    obtain ⟨hsb, hpos, -⟩ := ByteSource.nbBool_ok_inv h
    exact ⟨hsb, by omega⟩
  · intro s' h
    unfold ByteSource.GetFloat64 at h
    obtain ⟨hsb, -, -, hor⟩ := ByteSource.nbBool_err_inv hle h
    exact ⟨hsb, hor⟩
  · intro chars len cs s' h
    obtain ⟨hsb, hpos, hlen, -⟩ := ByteSource.getStringFrom_ok_inv h
    exact ⟨hsb, hpos, hlen⟩

/-- Witness for C2's amended per-operation contract at a concrete
single-byte read. -/
theorem c2_witness :
    ByteSource.SameBuf (ByteSource.New [1, 2] 10)
      { ByteSource.New [1, 2] 10 with position := 1 } ∧
    ({ ByteSource.New [1, 2] 10 with position := 1 } : ByteSource).position =
      (ByteSource.New [1, 2] 10).position + 1 :=
  (c2_amended (ByteSource.New [1, 2] 10) (by decide)).1 1
    { ByteSource.New [1, 2] 10 with position := 1 } rfl

/-- C8 counterexample: nothing caps the plain single-byte reads at
`maxStringLen`: over a one-byte buffer with `maxStringLen = 0`, `GetByte`
succeeds and the cursor lands at 1, beyond the configured cap. -/
theorem c8_counterexample :
    ByteSource.GetByte (ByteSource.New [5] 0) =
      .ok 5 { ByteSource.New [5] 0 with position := 1 } ∧
    (ByteSource.New [5] 0).maxStringLen = 0 ∧
    ({ ByteSource.New [5] 0 with position := 1 } : ByteSource).position >
      (ByteSource.New [5] 0).maxStringLen := by
  exact ⟨by decide, by decide, by decide⟩

/-- C8 (amended): on every well-formed state, every primitive read that
returns — with a value or an error — leaves the cursor at or after its
old position and never past the buffer length; the `maxStringLen` cap
bounds only the length-framed reads, not the cursor in general. -/
theorem c8_amended (s : ByteSource) (hwf : ByteSource.WF s) :
    (∀ (b : Nat) (s' : ByteSource), ByteSource.GetByte s = .ok b s' →
      s.position ≤ s'.position ∧ s'.position ≤ s.dataTotal) ∧
    (∀ s' : ByteSource, ByteSource.GetByte s = .err s' →
      s.position ≤ s'.position ∧ s'.position ≤ s.dataTotal) ∧
    (∀ (v : Nat) (s' : ByteSource), ByteSource.GetInt s = .ok v s' →
      s.position ≤ s'.position ∧ s'.position ≤ s.dataTotal) ∧
    (∀ s' : ByteSource, ByteSource.GetInt s = .err s' →
      s.position ≤ s'.position ∧ s'.position ≤ s.dataTotal) ∧
    (∀ (b : Bool) (s' : ByteSource), ByteSource.GetBool s = .ok b s' →
      s.position ≤ s'.position ∧ s'.position ≤ s.dataTotal) ∧
    (∀ s' : ByteSource, ByteSource.GetBool s = .err s' →
      s.position ≤ s'.position ∧ s'.position ≤ s.dataTotal) ∧
    (∀ (v : Nat) (s' : ByteSource), ByteSource.GetUint32 s = .ok v s' →
      s.position ≤ s'.position ∧ s'.position ≤ s.dataTotal) ∧
    (∀ s' : ByteSource, ByteSource.GetUint32 s = .err s' →
      s.position ≤ s'.position ∧ s'.position ≤ s.dataTotal) ∧
    (∀ (n : Nat) (bs : List Nat) (s' : ByteSource),
      ByteSource.GetNBytes n s = .ok bs s' →
      s.position ≤ s'.position ∧ s'.position ≤ s.dataTotal) ∧
    (∀ (n : Nat) (s' : ByteSource), ByteSource.GetNBytes n s = .err s' →
      s.position ≤ s'.position ∧ s'.position ≤ s.dataTotal) ∧
    (∀ (v : Nat) (s' : ByteSource), ByteSource.GetUint16 s = .ok v s' →
      s.position ≤ s'.position ∧ s'.position ≤ s.dataTotal) ∧
    (∀ s' : ByteSource, ByteSource.GetUint16 s = .err s' →
      s.position ≤ s'.position ∧ s'.position ≤ s.dataTotal) ∧
    (∀ (v : Nat) (s' : ByteSource), ByteSource.GetUint64 s = .ok v s' →
      s.position ≤ s'.position ∧ s'.position ≤ s.dataTotal) ∧
    (∀ s' : ByteSource, ByteSource.GetUint64 s = .err s' →
      s.position ≤ s'.position ∧ s'.position ≤ s.dataTotal) ∧
    (∀ (v : Nat) (s' : ByteSource), ByteSource.GetFloat32 s = .ok v s' →
      s.position ≤ s'.position ∧ s'.position ≤ s.dataTotal) ∧
    (∀ s' : ByteSource, ByteSource.GetFloat32 s = .err s' →
      s.position ≤ s'.position ∧ s'.position ≤ s.dataTotal) ∧
    (∀ (v : Nat) (s' : ByteSource), ByteSource.GetFloat64 s = .ok v s' →
      s.position ≤ s'.position ∧ s'.position ≤ s.dataTotal) ∧
    (∀ s' : ByteSource, ByteSource.GetFloat64 s = .err s' →
      s.position ≤ s'.position ∧ s'.position ≤ s.dataTotal) ∧
    (∀ (bs : List Nat) (s' : ByteSource), ByteSource.GetBytes s = .ok bs s' →
      s.position ≤ s'.position ∧ s'.position ≤ s.dataTotal) ∧
    (∀ s' : ByteSource, ByteSource.GetBytes s = .err s' →
      s.position ≤ s'.position ∧ s'.position ≤ s.dataTotal) ∧
    (∀ (bs : List Nat) (s' : ByteSource), ByteSource.GetString s = .ok bs s' →
      s.position ≤ s'.position ∧ s'.position ≤ s.dataTotal) ∧
    (∀ s' : ByteSource, ByteSource.GetString s = .err s' →
      s.position ≤ s'.position ∧ s'.position ≤ s.dataTotal) ∧
    (∀ (chars : List Nat) (len : Nat) (cs : List Nat) (s' : ByteSource),
      ByteSource.GetStringFrom chars len s = .ok cs s' →
      s.position ≤ s'.position ∧ s'.position ≤ s.dataTotal) ∧
    (∀ (chars : List Nat) (len : Nat) (s' : ByteSource),
      ByteSource.GetStringFrom chars len s = .err s' →
      s.position ≤ s'.position ∧ s'.position ≤ s.dataTotal) := by
  have hle : s.position ≤ s.dataTotal := hwf.2.1
  have hlen : s.dataTotal = s.data.length := hwf.1
  have hbyteOk : ∀ (b : Nat) (s' : ByteSource), ByteSource.GetByte s = .ok b s' →
      s.position ≤ s'.position ∧ s'.position ≤ s.dataTotal := by
    intro b s' h
    obtain ⟨hs', -, hlt⟩ := ByteSource.getByte_ok_inv h
    rw [hs']
    exact ⟨Nat.le_succ _, Nat.succ_le_of_lt hlt⟩
  have hbytesOk : ∀ (bs : List Nat) (s' : ByteSource),
      ByteSource.GetBytes s = .ok bs s' →
      s.position ≤ s'.position ∧ s'.position ≤ s.dataTotal := by
    intro bs s' h
    obtain ⟨-, hlt, L, -, hcase⟩ := ByteSource.getBytes_ok_inv h
    rcases hcase with ⟨-, -, hpos⟩ | ⟨-, hpos, hbound, -, -⟩ <;> omega
  have hbytesErr : ∀ s' : ByteSource, ByteSource.GetBytes s = .err s' →
      s.position ≤ s'.position ∧ s'.position ≤ s.dataTotal := by
    intro s' h
    obtain ⟨-, hmono, hbound, -⟩ := ByteSource.getBytes_err_inv hle h
    exact ⟨hmono, hbound⟩
  refine ⟨hbyteOk, ?_,
    fun v s' h => hbyteOk v s' ((ByteSource.getInt_eq_getByte s) ▸ h), ?_,
    ?_, ?_,
    fun v s' h => hbyteOk v s'
      ((ByteSource.getInt_eq_getByte s) ▸ (ByteSource.getUint32_eq_getInt s) ▸ h),
    ?_, ?_, ?_, ?_, ?_, ?_, ?_, ?_, ?_, ?_, ?_,
    hbytesOk, hbytesErr,
    fun bs s' h => hbytesOk bs s' ((ByteSource.getString_eq_getBytes s) ▸ h),
    fun s' h => hbytesErr s' ((ByteSource.getString_eq_getBytes s) ▸ h),
    ?_, ?_⟩
  · intro s' h
    obtain ⟨hs', -⟩ := ByteSource.getByte_err_inv h
    rw [hs']
    exact ⟨le_refl _, hle⟩
  · intro s' h
    obtain ⟨hs', -⟩ := ByteSource.getByte_err_inv
      ((ByteSource.getInt_eq_getByte s) ▸ h)
    rw [hs']
    exact ⟨le_refl _, hle⟩
  · intro b s' h
    obtain ⟨hs', ⟨c, hg, -⟩, -⟩ := ByteSource.getBool_ok_inv h
    obtain ⟨hsome, -⟩ := List.get?_eq_some.mp hg
    rw [hs']
    refine ⟨Nat.le_succ _, ?_⟩
    show s.position + 1 ≤ s.dataTotal
    omega
  · intro s' h
    obtain ⟨hs', -⟩ := ByteSource.getBool_err_inv h
    rw [hs']
    exact ⟨le_refl _, hle⟩
  · intro s' h
    obtain ⟨hs', -⟩ := ByteSource.getByte_err_inv ((ByteSource.getInt_eq_getByte s)
      ▸ (ByteSource.getUint32_eq_getInt s) ▸ h)
    rw [hs']
    exact ⟨le_refl _, hle⟩
  · intro n bs s' h
    obtain ⟨-, hpos, -, -, hbound⟩ := ByteSource.getNBytes_ok_inv h
    exact ⟨by omega, hbound hle⟩
  · intro n s' h
    obtain ⟨-, hmono, hbound, -⟩ := ByteSource.getNBytes_err_inv hle h
    exact ⟨hmono, hbound⟩
  · intro v s' h
    unfold ByteSource.GetUint16 at h
    obtain ⟨-, hpos, hbound⟩ := ByteSource.nbBool_ok_inv h
    exact ⟨by omega, hbound⟩
  · intro s' h
    unfold ByteSource.GetUint16 at h
    obtain ⟨-, hmono, hbound, -⟩ := ByteSource.nbBool_err_inv hle h
    exact ⟨hmono, hbound⟩
  · intro v s' h
    unfold ByteSource.GetUint64 at h
    obtain ⟨-, hpos, hbound⟩ := ByteSource.nbBool_ok_inv h
    exact ⟨by omega, hbound⟩
  · intro s' h
    unfold ByteSource.GetUint64 at h
    obtain ⟨-, hmono, hbound, -⟩ := ByteSource.nbBool_err_inv hle h
    exact ⟨hmono, hbound⟩
  · intro v s' h
    unfold ByteSource.GetFloat32 at h
    obtain ⟨-, hpos, hbound⟩ := ByteSource.nbBool_ok_inv h
    exact ⟨by omega, hbound⟩
  · intro s' h
    unfold ByteSource.GetFloat32 at h
    obtain ⟨-, hmono, hbound, -⟩ := ByteSource.nbBool_err_inv hle h
    exact ⟨hmono, hbound⟩
  · intro v s' h
    unfold ByteSource.GetFloat64 at h
    obtain ⟨-, hpos, hbound⟩ := ByteSource.nbBool_ok_inv h
    exact ⟨by omega, hbound⟩
  · intro s' h
    unfold ByteSource.GetFloat64 at h
    obtain ⟨-, hmono, hbound, -⟩ := ByteSource.nbBool_err_inv hle h
    exact ⟨hmono, hbound⟩
  · intro chars len cs s' h
    obtain ⟨-, hpos, -, hbound⟩ := ByteSource.getStringFrom_ok_inv h
    exact ⟨by omega, hbound hle⟩
  · intro chars len s' h
    obtain ⟨hs', -⟩ := ByteSource.getStringFrom_err_inv h
    rw [hs']
    exact ⟨le_refl _, hle⟩

/-- Witness for C8's amended cursor bounds at a concrete read. -/
theorem c8_witness :
    (ByteSource.New [8, 9] 7).position ≤
      ({ ByteSource.New [8, 9] 7 with position := 1 } : ByteSource).position ∧
    ({ ByteSource.New [8, 9] 7 with position := 1 } : ByteSource).position ≤
      (ByteSource.New [8, 9] 7).dataTotal :=
  (c8_amended (ByteSource.New [8, 9] 7) (by decide)).1 8
    { ByteSource.New [8, 9] 7 with position := 1 } rfl
